import Mathlib

/-!
# Verification of the HTML-to-DOCX translator of `md_to_docx.py`

This file shallowly embeds the class `HTMLToDocxParser` (defined inside
`MarkdownToDocxConverter.html_to_docx` in `src/md_to_docx.py`) together with
the fragment of the python-docx document-builder API that it drives:

* a document is a list of blocks (plain paragraphs, headings, tables);
* `doc.add_paragraph()` appends an empty paragraph, `doc.add_heading(t, l)`
  appends a heading block, `doc.add_table(rows=0, cols=0)` appends an empty
  table;
* `table.add_row()` appends a row with one (empty-paragraph) cell per current
  column, `table.add_column(w)` adds a column and one new empty cell to every
  existing row;
* `cell.text = ''` replaces the cell's content by a single paragraph holding a
  single empty run, and `cell.paragraphs[0]` is that first paragraph;
* a run records its text plus the character formatting the parser sets
  (font name, point size, RGB colour, run-level shading fill), and a paragraph
  records its style, its runs, and the paragraph-level properties the parser
  appends (shading fills, left-border colours, left indents).

Mutable Python references (`current_paragraph`, `current_table`, `current_row`,
`current_cell`) are embedded as indices into the document: a paragraph
reference is either a body-block index or a table/row/column address whose
target is the cell's first paragraph (the only cell paragraph the source ever
touches).  The attribute `current_cell_index`, which the source creates lazily
via `getattr`/`hasattr`, is an `Option Nat` that starts out absent.
`current_language` is initialised by the source but never used, and the
assignments `paragraph.space_before`/`space_after` in the `pre` handler set
plain Python attributes that python-docx ignores, so neither appears here.

Two ghost fields support the stated properties without influencing anything:
`trace` records, for each committed flush, which flush path ran (generic
`flush_text` versus `flush_text_as_heading`), the committed text and the value
of `in_heading` at commit time; `lost` becomes true when a cell-start event
clears a cell that already held a non-whitespace character.  No handler reads
either field.

Whitespace is `Char.isWhitespace` (space, tab, CR, LF), matching Python's
`str.strip` on the character set the translator can receive from the Markdown
renderer.
-/

set_option linter.unusedVariables false
set_option linter.unusedTactic false

namespace MdToDocx

/-- Python `s.strip()`: drop whitespace from both ends. -/
def pyStrip (s : String) : String :=
  String.mk (((s.data.dropWhile Char.isWhitespace).reverse.dropWhile
    Char.isWhitespace).reverse)

/-- Python's `needle in hay` substring test (used for the `codehilite`
class sniff on `div` start tags). -/
def subStr (needle : List Char) : List Char → Bool
  | [] => needle.isEmpty
  | c :: rest => needle.isPrefixOf (c :: rest) || subStr needle rest

/-- A docx run: its text and the character formatting `flush_text` sets. -/
structure Run where
  text : String
  fontName : Option String := none
  fontSizePt : Option Nat := none
  fontColor : Option (Nat × Nat × Nat) := none
  runShadeFill : Option String := none
  deriving DecidableEq, Repr

/-- A docx paragraph: style, runs, and the paragraph-level (pPr) properties
`flush_text` appends for code blocks. -/
structure Paragraph where
  style : String := "Normal"
  runs : List Run := []
  pShadeFills : List String := []
  pLeftBorders : List String := []
  pIndents : List Nat := []
  deriving DecidableEq, Repr

/-- A table cell: its list of paragraphs. -/
structure Cell where
  paragraphs : List Paragraph
  deriving DecidableEq, Repr

/-- A docx table: rows of cells, a column count, and the table style. -/
structure Table where
  rows : List (List Cell) := []
  cols : Nat := 0
  style : String := "Table Grid"
  deriving DecidableEq, Repr

/-- A body-level element of the document. -/
inductive Block where
  | para (p : Paragraph)
  | heading (text : String) (level : Nat)
  | table (t : Table)
  deriving DecidableEq, Repr

/-- Embedding of a Python reference to a paragraph: either a body block or
the first paragraph of the addressed table cell. -/
inductive ParaRef where
  | body (i : Nat)
  | cell (t r c : Nat)
  deriving DecidableEq, Repr

/-- Ghost: which flush path committed text. -/
inductive CommitKind where
  | generic
  | heading
  deriving DecidableEq, Repr

/-- Ghost: one committed flush (path, committed text, `in_heading` at commit
time). -/
structure CommitEvent where
  kind : CommitKind
  text : String
  inHeading : Bool
  deriving DecidableEq, Repr

/-- The parser events `html.parser.HTMLParser` delivers to the handlers. -/
inductive HtmlEvent where
  | startTag (tag : String) (attrs : List (String × String))
  | endTag (tag : String)
  | data (text : String)
  deriving DecidableEq, Repr

/-- The mutable state of `HTMLToDocxParser` (its `__init__` attributes),
plus the document being built and the two ghost fields. -/
structure ParserState where
  doc : List Block := []
  current_paragraph : Option ParaRef := none
  in_code : Bool := false
  in_heading : Bool := false
  heading_level : Nat := 1
  list_level : Int := 0
  text_buffer : String := ""
  current_table : Option Nat := none
  current_row : Option (Nat × Nat) := none
  current_cell : Option (Nat × Nat × Nat) := none
  current_cell_index : Option Nat := none
  in_table_header : Bool := false
  in_code_block : Bool := false
  trace : List CommitEvent := []
  lost : Bool := false
  deriving DecidableEq, Repr

/-- The parser's initial state (`HTMLToDocxParser.__init__`). -/
def initState : ParserState := {}

/-- A fresh empty paragraph (what `doc.add_paragraph()` creates). -/
def emptyParagraph : Paragraph := {}

/-- A fresh cell, as created by `add_row`/`add_column`. -/
def newCell : Cell := ⟨[emptyParagraph]⟩

/-- A cell after `cell.text = ''`: one paragraph holding one empty run. -/
def clearedCell : Cell := ⟨[{ runs := [{ text := "" }] }]⟩

/-- Replace the element at index `i` by its image under `f` (no effect when
`i` is out of range). -/
def modifyIdx (f : α → α) : Nat → List α → List α
  | _, [] => []
  | 0, a :: l => f a :: l
  | n + 1, a :: l => a :: modifyIdx f n l

/-- The block at index `i` of the document body. -/
def blockAt (d : List Block) (i : Nat) : Option Block := d.get? i

/-- Apply `f` when the block is a plain paragraph. -/
def mapBlockPara (f : Paragraph → Paragraph) : Block → Block
  | Block.para p => Block.para (f p)
  | b => b

/-- Apply `f` when the block is a table. -/
def mapBlockTable (f : Table → Table) : Block → Block
  | Block.table t => Block.table (f t)
  | b => b

/-- `table.add_row()`: append a row with one fresh cell per current column. -/
def addRowT (t : Table) : Table :=
  { t with rows := t.rows ++ [List.replicate t.cols newCell] }

/-- `n` iterations of `table.add_column(Inches(1.5))`: each adds a column and
one fresh cell to every existing row. -/
def addColumnsT (n : Nat) (t : Table) : Table :=
  { t with cols := t.cols + n,
           rows := t.rows.map (fun row => row ++ List.replicate n newCell) }

/-- The row at `(table block index, row index)`. -/
def rowAt (d : List Block) (t r : Nat) : Option (List Cell) :=
  match blockAt d t with
  | some (Block.table tb) => tb.rows.get? r
  | _ => none

/-- The cell at `(table block index, row index, column index)`. -/
def cellAt (d : List Block) (t r c : Nat) : Option Cell :=
  (rowAt d t r).bind (fun row => row.get? c)

/-- Rewrite the cell at the given address with `f`. -/
def updCellAt (d : List Block) (t r c : Nat) (f : Cell → Cell) : List Block :=
  modifyIdx (mapBlockTable (fun tb =>
    { tb with rows := modifyIdx (modifyIdx f c) r tb.rows })) t d

/-- Rewrite the paragraph a `ParaRef` designates with `f`. -/
def updParaAt (d : List Block) (ref : ParaRef) (f : Paragraph → Paragraph) :
    List Block :=
  match ref with
  | ParaRef.body i => modifyIdx (mapBlockPara f) i d
  | ParaRef.cell t r c =>
      updCellAt d t r c (fun cell =>
        { cell with paragraphs := modifyIdx f 0 cell.paragraphs })

/-- `paragraph.add_run(text)` at a paragraph reference. -/
def appendRunAt (d : List Block) (ref : ParaRef) (run : Run) : List Block :=
  updParaAt d ref (fun p => { p with runs := p.runs ++ [run] })

/-- The paragraph-level code-block decoration `flush_text` applies: gray
shading fill `E9ECEF`, blue left border `569CD6`, left indent `340`. -/
def applyCodeBlockPPr (d : List Block) (ref : ParaRef) : List Block :=
  updParaAt d ref (fun p =>
    { p with pShadeFills := p.pShadeFills ++ ["E9ECEF"],
             pLeftBorders := p.pLeftBorders ++ ["569CD6"],
             pIndents := p.pIndents ++ [340] })

/-- All characters held by a cell's runs (used for the ghost `lost` flag). -/
def Cell.chars (c : Cell) : List Char :=
  c.paragraphs.flatMap (fun p => p.runs.flatMap (fun r => r.text.data))

/-- The run `flush_text` commits: plain text, or inline-code styling
(monospace 9pt, accent colour, run shading), or block-code styling
(monospace 9pt, dark colour; the paragraph decoration is applied
separately). -/
def flushRun (s : ParserState) : Run :=
  if s.in_code then
    if s.in_code_block then
      { text := s.text_buffer, fontName := some "Courier New",
        fontSizePt := some 9, fontColor := some (33, 37, 41) }
    else
      { text := s.text_buffer, fontName := some "Courier New",
        fontSizePt := some 9, fontColor := some (86, 156, 214),
        runShadeFill := some "F5F5F5" }
  else { text := s.text_buffer }

/-- `HTMLToDocxParser.flush_text` (lines 325–378): commit the buffer as a run
of the current paragraph (creating a plain paragraph when none is open),
with inline-code or block-code styling when the code flags are set; a
whitespace-only buffer is discarded. -/
def flush_text (s : ParserState) : ParserState :=
  if pyStrip s.text_buffer = "" then
    { s with text_buffer := "" }
  else
    let target : List Block × ParaRef :=
      match s.current_paragraph with
      | some ref => (s.doc, ref)
      | none => (s.doc ++ [Block.para emptyParagraph], ParaRef.body s.doc.length)
    let doc1 := appendRunAt target.1 target.2 (flushRun s)
    let doc2 := if s.in_code && s.in_code_block then
        applyCodeBlockPPr doc1 target.2
      else doc1
    { s with doc := doc2, current_paragraph := some target.2, text_buffer := "",
             trace := s.trace ++ [⟨CommitKind.generic, s.text_buffer, s.in_heading⟩] }

/-- `HTMLToDocxParser.flush_text_as_heading` (lines 380–384): commit the
trimmed buffer as a heading block when non-empty; always clear the buffer and
drop the current paragraph. -/
def flush_text_as_heading (s : ParserState) : ParserState :=
  if pyStrip s.text_buffer = "" then
    { s with text_buffer := "", current_paragraph := none }
  else
    { s with doc := s.doc ++ [Block.heading (pyStrip s.text_buffer) s.heading_level],
             text_buffer := "", current_paragraph := none,
             trace := s.trace ++
               [⟨CommitKind.heading, pyStrip s.text_buffer, s.in_heading⟩] }

/-- The tag vocabulary the handlers test for, in the order of the source's
elif chains; a heading tag carries `int(tag[1])`.  Every other tag is
`other` (structurally ignored; `span` is explicitly so in the source). -/
inductive TagKind where
  | heading (level : Nat)
  | par
  | code
  | div
  | pre
  | ulist
  | olist
  | li
  | table
  | thead
  | tbody
  | tr
  | td
  | th
  | br
  | span
  | other
  deriving DecidableEq, Repr

/-- Classify a tag name, mirroring the source's chain of tag comparisons. -/
def classifyTag (t : String) : TagKind :=
  if t == "h1" then TagKind.heading 1
  else if t == "h2" then TagKind.heading 2
  else if t == "h3" then TagKind.heading 3
  else if t == "h4" then TagKind.heading 4
  else if t == "h5" then TagKind.heading 5
  else if t == "h6" then TagKind.heading 6
  else if t == "p" then TagKind.par
  else if t == "code" then TagKind.code
  else if t == "div" then TagKind.div
  else if t == "pre" then TagKind.pre
  else if t == "ul" then TagKind.ulist
  else if t == "ol" then TagKind.olist
  else if t == "li" then TagKind.li
  else if t == "table" then TagKind.table
  else if t == "thead" then TagKind.thead
  else if t == "tbody" then TagKind.tbody
  else if t == "tr" then TagKind.tr
  else if t == "td" then TagKind.td
  else if t == "th" then TagKind.th
  else if t == "br" then TagKind.br
  else if t == "span" then TagKind.span
  else TagKind.other

/-- Is the tag one of `h1`–`h6`? -/
def isHeadingTag (t : String) : Bool :=
  match classifyTag t with
  | TagKind.heading _ => true
  | _ => false

/-- The `div` attribute scan: some `class` attribute whose value contains the
substring `codehilite`. -/
def isCodehiliteAttrs (attrs : List (String × String)) : Bool :=
  attrs.any (fun p => p.1 == "class" && subStr "codehilite".data p.2.data)

/-- `doc.add_paragraph(style)` followed by assigning the result to
`current_paragraph`. -/
def addParagraph (s : ParserState) (style : String) : ParserState :=
  { s with doc := s.doc ++ [Block.para { style := style }],
           current_paragraph := some (ParaRef.body s.doc.length) }

/-- The `tr` start branch of `handle_starttag` (lines 257–260): with a
current table, add a row to it and reset the running cell index. -/
def handleRowStart (s : ParserState) : ParserState :=
  match s.current_table with
  | some ti =>
    match blockAt s.doc ti with
    | some (Block.table t) =>
      { s with doc := modifyIdx (mapBlockTable addRowT) ti s.doc,
               current_row := some (ti, t.rows.length),
               current_cell_index := some 0 }
    | _ => s    -- unreachable: current_table always addresses a table block
  | none => s

/-- The shared `td`/`th` start branch of `handle_starttag` (lines 261–275):
with a current row, default then record the running cell index, grow the
current table's columns until it exceeds that index, and — when the index
addresses an existing cell of the current row — clear that cell
(`cell.text = ''`) and make its first paragraph current. -/
def handleCellStart (s : ParserState) : ParserState :=
  match s.current_row with
  | some rtr =>
    let cci := s.current_cell_index.getD 0
    match s.current_table with
    | some ti =>
      match blockAt s.doc ti with
      | some (Block.table t) =>
        let doc1 := modifyIdx (mapBlockTable (addColumnsT (cci + 1 - t.cols))) ti s.doc
        match rowAt doc1 rtr.1 rtr.2 with
        | some row =>
          if cci < row.length then
            let cellCh := (cellAt doc1 rtr.1 rtr.2 cci).elim [] Cell.chars
            { s with doc := updCellAt doc1 rtr.1 rtr.2 cci (fun _ => clearedCell),
                     current_cell := some (rtr.1, rtr.2, cci),
                     current_paragraph := some (ParaRef.cell rtr.1 rtr.2 cci),
                     current_cell_index := some cci,
                     lost := s.lost || cellCh.any (fun c => !c.isWhitespace) }
          else { s with doc := doc1, current_cell_index := some cci }
        | none => { s with doc := doc1, current_cell_index := some cci }
      | _ => { s with current_cell_index := some cci }   -- unreachable
    | none => { s with current_cell_index := some cci }  -- unreachable
  | none => s

/-- `HTMLToDocxParser.handle_starttag` (lines 212–280). -/
def handle_starttag (s : ParserState) (tag : String)
    (attrs : List (String × String)) : ParserState :=
  match classifyTag tag with
  | TagKind.heading n =>
    let s1 := flush_text s
    { s1 with in_heading := true, heading_level := n }
  | TagKind.par => addParagraph (flush_text s) "Normal"
  | TagKind.code =>
    let s1 := flush_text s
    { s1 with in_code := true }
  | TagKind.div =>
    if isCodehiliteAttrs attrs then
      let s1 := flush_text s
      addParagraph { s1 with in_code_block := true } "Normal"
    else s
  | TagKind.pre =>
    if s.in_code_block then
      -- the source also assigns `space_before`/`space_after`, which
      -- python-docx paragraphs ignore (plain attribute assignment)
      { s with in_code := true }
    else addParagraph (flush_text s) "Normal"
  | TagKind.ulist =>
    let s1 := flush_text s
    { s1 with list_level := s1.list_level + 1 }
  | TagKind.olist =>
    let s1 := flush_text s
    { s1 with list_level := s1.list_level + 1 }
  | TagKind.li => addParagraph (flush_text s) "List Bullet"
  | TagKind.table =>
    let s1 := flush_text s
    { s1 with doc := s1.doc ++ [Block.table {}],
              current_table := some s1.doc.length }
  | TagKind.thead => { s with in_table_header := true }
  | TagKind.tbody => { s with in_table_header := false }
  | TagKind.tr => handleRowStart s
  | TagKind.td => handleCellStart s
  | TagKind.th => handleCellStart s
  | TagKind.br => { s with text_buffer := s.text_buffer ++ "\n" }
  | TagKind.span => s
  | TagKind.other => s

/-- The shared `td`/`th` end branch of `handle_endtag` (lines 314–320). -/
def handleCellEnd (s : ParserState) : ParserState :=
  let s1 := flush_text s
  { s1 with current_cell_index := s1.current_cell_index.map (fun n => n + 1),
            current_cell := none, current_paragraph := none }

/-- `HTMLToDocxParser.handle_endtag` (lines 282–320). -/
def handle_endtag (s : ParserState) (tag : String) : ParserState :=
  match classifyTag tag with
  | TagKind.heading _ =>
    let s1 := flush_text_as_heading s
    { s1 with in_heading := false }
  | TagKind.par => flush_text s
  | TagKind.code =>
    let s1 := flush_text s
    { s1 with in_code := false }
  | TagKind.pre =>
    if s.in_code_block then
      let s1 := flush_text s
      { s1 with in_code := false }
    else flush_text s
  | TagKind.div =>
    if s.in_code_block then
      { s with in_code_block := false, current_paragraph := none }
    else s
  | TagKind.ulist => { s with list_level := s.list_level - 1 }
  | TagKind.olist => { s with list_level := s.list_level - 1 }
  | TagKind.li => flush_text s
  | TagKind.table =>
    { s with current_table := none, current_row := none, current_cell := none }
  | TagKind.tr => { s with current_row := none }
  | TagKind.td => handleCellEnd s
  | TagKind.th => handleCellEnd s
  | _ => s

/-- `HTMLToDocxParser.handle_data` (lines 322–323). -/
def handle_data (s : ParserState) (d : String) : ParserState :=
  { s with text_buffer := s.text_buffer ++ d }

/-- Dispatch one parser event to its handler. -/
def step (s : ParserState) (e : HtmlEvent) : ParserState :=
  match e with
  | HtmlEvent.startTag t a => handle_starttag s t a
  | HtmlEvent.endTag t => handle_endtag s t
  | HtmlEvent.data d => handle_data s d

/-- Feed a list of events through the parser. -/
def processEvents (s : ParserState) (es : List HtmlEvent) : ParserState :=
  es.foldl step s

/-- `MarkdownToDocxConverter.html_to_docx` (lines 386–388): feed the events,
then one final `flush_text` for trailing buffered data. -/
def html_to_docx (es : List HtmlEvent) : ParserState :=
  flush_text (processEvents initState es)

/-- The texts of all runs of the document (body paragraphs and table cells,
in order), with each heading contributing its text. -/
def Paragraph.strings (p : Paragraph) : List String := p.runs.map Run.text

/-- The run texts inside one cell. -/
def Cell.strings (c : Cell) : List String := c.paragraphs.flatMap Paragraph.strings

/-- The run texts inside one block. -/
def Block.strings : Block → List String
  | Block.para p => p.strings
  | Block.heading t _ => [t]
  | Block.table tb => tb.rows.flatMap (fun row => row.flatMap Cell.strings)

/-- All run/heading texts of a document. -/
def docStrings (d : List Block) : List String := d.flatMap Block.strings

/-- All characters of all run/heading texts of a document. -/
def docChars (d : List Block) : List Char := (docStrings d).flatMap String.data

/-- All characters delivered by the Data events of a stream. -/
def dataChars (es : List HtmlEvent) : List Char :=
  es.flatMap (fun e =>
    match e with
    | HtmlEvent.data t => t.data
    | _ => [])

/-- Number of table blocks in the document body. -/
def numTables (d : List Block) : Nat :=
  (d.filter (fun b => match b with | Block.table _ => true | _ => false)).length

/-- Row count of the table block at index `i`, when it is a table. -/
def tableRowsAt (d : List Block) (i : Nat) : Option Nat :=
  match blockAt d i with
  | some (Block.table t) => some t.rows.length
  | _ => none

/-- Column count of the table block at index `i`, when it is a table. -/
def tableColsAt (d : List Block) (i : Nat) : Option Nat :=
  match blockAt d i with
  | some (Block.table t) => some t.cols
  | _ => none

/-- Concatenated run text of the addressed cell. -/
def cellTextAt (d : List Block) (t r c : Nat) : Option String :=
  (cellAt d t r c).map (fun cl => String.join cl.strings)

/-- Validity of a paragraph reference: it addresses an existing paragraph
(for a cell reference, the cell exists and has at least one paragraph). -/
def refOk (d : List Block) : Option ParaRef → Prop
  | none => True
  | some (ParaRef.body i) => ∃ p, blockAt d i = some (Block.para p)
  | some (ParaRef.cell t r c) =>
      ∃ cell, cellAt d t r c = some cell ∧ cell.paragraphs ≠ []

/-- The successor of the `in_heading` flag, which depends only on the event:
set at a heading start tag, dropped at a heading end tag. -/
def nextInHeading (b : Bool) (e : HtmlEvent) : Bool :=
  match e with
  | HtmlEvent.startTag t _ =>
    match classifyTag t with
    | TagKind.heading _ => true
    | _ => b
  | HtmlEvent.endTag t =>
    match classifyTag t with
    | TagKind.heading _ => false
    | _ => b
  | HtmlEvent.data _ => b

/-- Start tags whose handler may invoke the generic `flush_text`
(`pre` flushes only outside a code container; it is counted here). -/
def startFlushes (t : String) (attrs : List (String × String)) : Bool :=
  match classifyTag t with
  | TagKind.heading _ => true
  | TagKind.par => true
  | TagKind.code => true
  | TagKind.div => isCodehiliteAttrs attrs
  | TagKind.pre => true
  | TagKind.ulist => true
  | TagKind.olist => true
  | TagKind.li => true
  | TagKind.table => true
  | _ => false

/-- End tags whose handler invokes a flush (heading end tags flush through
the heading-specific path). -/
def endFlushes (t : String) : Bool :=
  match classifyTag t with
  | TagKind.heading _ => true
  | TagKind.par => true
  | TagKind.code => true
  | TagKind.pre => true
  | TagKind.li => true
  | TagKind.td => true
  | TagKind.th => true
  | _ => false

/-- Events that never invoke any flush. -/
def nonFlushing : HtmlEvent → Bool
  | HtmlEvent.startTag t a => !startFlushes t a
  | HtmlEvent.endTag t => !endFlushes t
  | HtmlEvent.data _ => true

/-- Is the event a heading end tag? -/
def isHeadingEnd : HtmlEvent → Bool
  | HtmlEvent.endTag t => isHeadingTag t
  | _ => false

/-- A stream is heading-safe when, inside every heading, only non-flushing
events occur before the heading end tag, and the stream does not end inside
an open heading. -/
def headingSafe : Bool → List HtmlEvent → Bool
  | b, [] => !b
  | b, e :: es =>
    (if b && !isHeadingEnd e then nonFlushing e else true) &&
      headingSafe (nextInHeading b e) es

/-- Contribution of an event to the list nesting counter. -/
def listDelta : HtmlEvent → Int
  | HtmlEvent.startTag t _ =>
    match classifyTag t with
    | TagKind.ulist => 1
    | TagKind.olist => 1
    | _ => 0
  | HtmlEvent.endTag t =>
    match classifyTag t with
    | TagKind.ulist => -1
    | TagKind.olist => -1
    | _ => 0
  | HtmlEvent.data _ => 0

/-- Number of list-container starts minus list-container ends of a stream. -/
def listBalance (es : List HtmlEvent) : Int := (es.map listDelta).sum

/-- Forget the header-section flag (for flag-independence statements). -/
def eraseHeaderFlag (s : ParserState) : ParserState :=
  { s with in_table_header := false }

/-- Forget the list nesting counter (for counter-independence statements). -/
def eraseListLevel (s : ParserState) : ParserState := { s with list_level := 0 }

/-- Is the event a head-section (`thead`) start or end tag? -/
def isTheadEvent : HtmlEvent → Bool
  | HtmlEvent.startTag t _ => classifyTag t == TagKind.thead
  | HtmlEvent.endTag t => classifyTag t == TagKind.thead
  | HtmlEvent.data _ => false

/-- The second stream arises from the first by replacing every `thead`
start/end tag with a `tbody` tag or removing it; all other events are kept
verbatim. -/
inductive TheadErased : List HtmlEvent → List HtmlEvent → Prop where
  | nil : TheadErased [] []
  | keep {es fs : List HtmlEvent} (e : HtmlEvent) (h : isTheadEvent e = false) :
      TheadErased es fs → TheadErased (e :: es) (e :: fs)
  | replaceStart {es fs : List HtmlEvent} (a b : List (String × String)) :
      TheadErased es fs →
      TheadErased (HtmlEvent.startTag "thead" a :: es)
        (HtmlEvent.startTag "tbody" b :: fs)
  | replaceEnd {es fs : List HtmlEvent} :
      TheadErased es fs →
      TheadErased (HtmlEvent.endTag "thead" :: es) (HtmlEvent.endTag "tbody" :: fs)
  | dropStart {es fs : List HtmlEvent} (a : List (String × String)) :
      TheadErased es fs → TheadErased (HtmlEvent.startTag "thead" a :: es) fs
  | dropEnd {es fs : List HtmlEvent} :
      TheadErased es fs → TheadErased (HtmlEvent.endTag "thead" :: es) fs

/-- Growth order on tables: column count, row count and each existing row's
cell count never shrink. -/
def TableLe (t t' : Table) : Prop :=
  t.cols ≤ t'.cols ∧ t.rows.length ≤ t'.rows.length ∧
  ∀ r row, t.rows.get? r = some row →
    ∃ row', t'.rows.get? r = some row' ∧ row.length ≤ row'.length

/-- Blocks keep their kind; tables may only grow. -/
def BlockLe : Block → Block → Prop
  | Block.para _, Block.para _ => True
  | Block.heading _ _, Block.heading _ _ => True
  | Block.table t, Block.table t' => TableLe t t'
  | _, _ => False

/-- Document growth: every existing block survives at its index, with at
most a growth of its table shape. -/
def DocLe (d d' : List Block) : Prop :=
  ∀ i b, d.get? i = some b → ∃ b', d'.get? i = some b' ∧ BlockLe b b'

/-- `<table><tr><td>a</td><td>b</td></tr><tr><td>c</td></tr></table>`. -/
def exTableShape : List HtmlEvent :=
  [HtmlEvent.startTag "table" [], HtmlEvent.startTag "tr" [],
   HtmlEvent.startTag "td" [], HtmlEvent.data "a", HtmlEvent.endTag "td",
   HtmlEvent.startTag "td" [], HtmlEvent.data "b", HtmlEvent.endTag "td",
   HtmlEvent.endTag "tr", HtmlEvent.startTag "tr" [],
   HtmlEvent.startTag "td" [], HtmlEvent.data "c", HtmlEvent.endTag "td",
   HtmlEvent.endTag "tr", HtmlEvent.endTag "table"]

/-- `<code>x</code>` outside any code container. -/
def exInlineCode : List HtmlEvent :=
  [HtmlEvent.startTag "code" [], HtmlEvent.data "x", HtmlEvent.endTag "code"]

/-- `<div class="codehilite"><pre>y</pre></div>`. -/
def exBlockCode : List HtmlEvent :=
  [HtmlEvent.startTag "div" [("class", "codehilite")],
   HtmlEvent.startTag "pre" [], HtmlEvent.data "y", HtmlEvent.endTag "pre",
   HtmlEvent.endTag "div"]

/-- `<td>orphan</td>` with no enclosing table or row. -/
def exOrphanCell : List HtmlEvent :=
  [HtmlEvent.startTag "td" [], HtmlEvent.data "orphan", HtmlEvent.endTag "td"]

/-- `<p></p>`. -/
def exEmptyParagraphTags : List HtmlEvent :=
  [HtmlEvent.startTag "p" [], HtmlEvent.endTag "p"]

/-- `<h2>Title</h2>`. -/
def exHeading : List HtmlEvent :=
  [HtmlEvent.startTag "h2" [], HtmlEvent.data "Title", HtmlEvent.endTag "h2"]

/-- A malformed table fragment in which a second cell start tag arrives while
the first cell of the same row is still open: the handler re-selects cell 0
and clears it, discarding the already committed run holding `x`. -/
def exCellRecleared : List HtmlEvent :=
  [HtmlEvent.startTag "table" [], HtmlEvent.startTag "tr" [],
   HtmlEvent.startTag "td" [], HtmlEvent.data "x", HtmlEvent.startTag "code" [],
   HtmlEvent.startTag "td" [], HtmlEvent.data "y", HtmlEvent.endTag "td",
   HtmlEvent.endTag "tr", HtmlEvent.endTag "table"]

/-- A heading start tag whose stream ends before the heading end tag: the
trailing flush of `html_to_docx` commits the heading-buffered text through
the generic flush path. -/
def exUnclosedHeading : List HtmlEvent :=
  [HtmlEvent.startTag "h2" [], HtmlEvent.data "Title"]

/-- A well-formed heading followed by a paragraph. -/
def exHeadingThenParagraph : List HtmlEvent :=
  [HtmlEvent.startTag "h2" [], HtmlEvent.data "T", HtmlEvent.endTag "h2",
   HtmlEvent.startTag "p" [], HtmlEvent.data "x", HtmlEvent.endTag "p"]

/-- A table with a head-section row and a body-section row. -/
def exWithThead : List HtmlEvent :=
  [HtmlEvent.startTag "table" [], HtmlEvent.startTag "thead" [],
   HtmlEvent.startTag "tr" [], HtmlEvent.startTag "th" [], HtmlEvent.data "H",
   HtmlEvent.endTag "th", HtmlEvent.endTag "tr", HtmlEvent.endTag "thead",
   HtmlEvent.startTag "tbody" [], HtmlEvent.startTag "tr" [],
   HtmlEvent.startTag "td" [], HtmlEvent.data "B", HtmlEvent.endTag "td",
   HtmlEvent.endTag "tr", HtmlEvent.endTag "tbody", HtmlEvent.endTag "table"]

/-- `exWithThead` with the `thead` tags replaced by `tbody` tags. -/
def exWithTheadReplaced : List HtmlEvent :=
  [HtmlEvent.startTag "table" [], HtmlEvent.startTag "tbody" [],
   HtmlEvent.startTag "tr" [], HtmlEvent.startTag "th" [], HtmlEvent.data "H",
   HtmlEvent.endTag "th", HtmlEvent.endTag "tr", HtmlEvent.endTag "tbody",
   HtmlEvent.startTag "tbody" [], HtmlEvent.startTag "tr" [],
   HtmlEvent.startTag "td" [], HtmlEvent.data "B", HtmlEvent.endTag "td",
   HtmlEvent.endTag "tr", HtmlEvent.endTag "tbody", HtmlEvent.endTag "table"]

/-- `<p>hi</p>`: a plain paragraph stream with no table cells. -/
def exPlainParagraph : List HtmlEvent :=
  [HtmlEvent.startTag "p" [], HtmlEvent.data "hi", HtmlEvent.endTag "p"]

/-- A trace is clean when every generic commit happened outside a heading. -/
def CleanTrace (l : List CommitEvent) : Prop :=
  ∀ c ∈ l, c.kind = CommitKind.generic → c.inHeading = false

/-- Every non-whitespace character reachable in the first state (in the
document or in the pending buffer) is still reachable in the second. -/
def CharsMono (s s2 : ParserState) : Prop :=
  ∀ c : Char, c.isWhitespace = false →
    c ∈ docChars s.doc ++ s.text_buffer.data →
    c ∈ docChars s2.doc ++ s2.text_buffer.data

/-- The run styling of bare inline code (`<code>` outside a code container):
monospace, reduced size, accent (blue) foreground, run-level light shading. -/
def inlineCodeRun : Run :=
  { text := "x", fontName := some "Courier New", fontSizePt := some 9,
    fontColor := some (86, 156, 214), runShadeFill := some "F5F5F5" }

/-- The run styling of code-container text: monospace, reduced size, dark
foreground, and no run-level shading. -/
def blockCodeRun : Run :=
  { text := "y", fontName := some "Courier New", fontSizePt := some 9,
    fontColor := some (33, 37, 41), runShadeFill := none }

/-- The paragraph holding a code-container run: paragraph-level gray shading,
a coloured left border, and a left indent. -/
def blockCodeParagraph : Paragraph :=
  { style := "Normal", runs := [blockCodeRun], pShadeFills := ["E9ECEF"],
    pLeftBorders := ["569CD6"], pIndents := [340] }

/-! ## Equation lemmas for the handlers, one per tag kind -/

section StepEquations

variable (s : ParserState) (t : String) (a : List (String × String))

theorem step_start_eq : step s (HtmlEvent.startTag t a) = handle_starttag s t a := rfl

theorem step_end_eq : step s (HtmlEvent.endTag t) = handle_endtag s t := rfl

theorem step_data_eq (d : String) :
    step s (HtmlEvent.data d) = { s with text_buffer := s.text_buffer ++ d } := rfl

theorem hs_heading {n : Nat} (h : classifyTag t = TagKind.heading n) :
    handle_starttag s t a =
      { flush_text s with in_heading := true, heading_level := n } := by
  unfold handle_starttag; rw [h]

theorem hs_par (h : classifyTag t = TagKind.par) :
    handle_starttag s t a = addParagraph (flush_text s) "Normal" := by
  unfold handle_starttag; rw [h]

theorem hs_code (h : classifyTag t = TagKind.code) :
    handle_starttag s t a = { flush_text s with in_code := true } := by
  unfold handle_starttag; rw [h]

theorem hs_div (h : classifyTag t = TagKind.div) :
    handle_starttag s t a =
      if isCodehiliteAttrs a then
        addParagraph { flush_text s with in_code_block := true } "Normal"
      else s := by
  unfold handle_starttag; rw [h]

theorem hs_pre (h : classifyTag t = TagKind.pre) :
    handle_starttag s t a =
      if s.in_code_block then { s with in_code := true }
      else addParagraph (flush_text s) "Normal" := by
  unfold handle_starttag; rw [h]

theorem hs_ulist (h : classifyTag t = TagKind.ulist) :
    handle_starttag s t a =
      { flush_text s with list_level := (flush_text s).list_level + 1 } := by
  unfold handle_starttag; rw [h]

theorem hs_olist (h : classifyTag t = TagKind.olist) :
    handle_starttag s t a =
      { flush_text s with list_level := (flush_text s).list_level + 1 } := by
  unfold handle_starttag; rw [h]

theorem hs_li (h : classifyTag t = TagKind.li) :
    handle_starttag s t a = addParagraph (flush_text s) "List Bullet" := by
  unfold handle_starttag; rw [h]

theorem hs_table (h : classifyTag t = TagKind.table) :
    handle_starttag s t a =
      { flush_text s with
          doc := (flush_text s).doc ++ [Block.table {}],
          current_table := some (flush_text s).doc.length } := by
  unfold handle_starttag; rw [h]

theorem hs_thead (h : classifyTag t = TagKind.thead) :
    handle_starttag s t a = { s with in_table_header := true } := by
  unfold handle_starttag; rw [h]

theorem hs_tbody (h : classifyTag t = TagKind.tbody) :
    handle_starttag s t a = { s with in_table_header := false } := by
  unfold handle_starttag; rw [h]

theorem hs_tr (h : classifyTag t = TagKind.tr) :
    handle_starttag s t a = handleRowStart s := by
  unfold handle_starttag; rw [h]

theorem hs_td (h : classifyTag t = TagKind.td) :
    handle_starttag s t a = handleCellStart s := by
  unfold handle_starttag; rw [h]

theorem hs_th (h : classifyTag t = TagKind.th) :
    handle_starttag s t a = handleCellStart s := by
  unfold handle_starttag; rw [h]

theorem hs_br (h : classifyTag t = TagKind.br) :
    handle_starttag s t a = { s with text_buffer := s.text_buffer ++ "\n" } := by
  unfold handle_starttag; rw [h]

theorem hs_span (h : classifyTag t = TagKind.span) :
    handle_starttag s t a = s := by
  unfold handle_starttag; rw [h]

theorem hs_other (h : classifyTag t = TagKind.other) :
    handle_starttag s t a = s := by
  unfold handle_starttag; rw [h]

theorem he_heading {n : Nat} (h : classifyTag t = TagKind.heading n) :
    handle_endtag s t = { flush_text_as_heading s with in_heading := false } := by
  unfold handle_endtag; rw [h]

theorem he_par (h : classifyTag t = TagKind.par) :
    handle_endtag s t = flush_text s := by
  unfold handle_endtag; rw [h]

theorem he_code (h : classifyTag t = TagKind.code) :
    handle_endtag s t = { flush_text s with in_code := false } := by
  unfold handle_endtag; rw [h]

theorem he_pre (h : classifyTag t = TagKind.pre) :
    handle_endtag s t =
      if s.in_code_block then { flush_text s with in_code := false }
      else flush_text s := by
  unfold handle_endtag; rw [h]

theorem he_div (h : classifyTag t = TagKind.div) :
    handle_endtag s t =
      if s.in_code_block then
        { s with in_code_block := false, current_paragraph := none }
      else s := by
  unfold handle_endtag; rw [h]

theorem he_ulist (h : classifyTag t = TagKind.ulist) :
    handle_endtag s t = { s with list_level := s.list_level - 1 } := by
  unfold handle_endtag; rw [h]

theorem he_olist (h : classifyTag t = TagKind.olist) :
    handle_endtag s t = { s with list_level := s.list_level - 1 } := by
  unfold handle_endtag; rw [h]

theorem he_li (h : classifyTag t = TagKind.li) :
    handle_endtag s t = flush_text s := by
  unfold handle_endtag; rw [h]

theorem he_table (h : classifyTag t = TagKind.table) :
    handle_endtag s t =
      { s with current_table := none, current_row := none, current_cell := none } := by
  unfold handle_endtag; rw [h]

theorem he_tr (h : classifyTag t = TagKind.tr) :
    handle_endtag s t = { s with current_row := none } := by
  unfold handle_endtag; rw [h]

theorem he_td (h : classifyTag t = TagKind.td) :
    handle_endtag s t = handleCellEnd s := by
  unfold handle_endtag; rw [h]

theorem he_th (h : classifyTag t = TagKind.th) :
    handle_endtag s t = handleCellEnd s := by
  unfold handle_endtag; rw [h]

theorem he_thead (h : classifyTag t = TagKind.thead) : handle_endtag s t = s := by
  unfold handle_endtag; rw [h]

theorem he_tbody (h : classifyTag t = TagKind.tbody) : handle_endtag s t = s := by
  unfold handle_endtag; rw [h]

theorem he_br (h : classifyTag t = TagKind.br) : handle_endtag s t = s := by
  unfold handle_endtag; rw [h]

theorem he_span (h : classifyTag t = TagKind.span) : handle_endtag s t = s := by
  unfold handle_endtag; rw [h]

theorem he_other (h : classifyTag t = TagKind.other) : handle_endtag s t = s := by
  unfold handle_endtag; rw [h]

end StepEquations

/-! ## Small helper lemmas about the flush routines and handlers -/

theorem flush_text_of_strip_empty (s : ParserState)
    (h : pyStrip s.text_buffer = "") :
    flush_text s = { s with text_buffer := "" } := by
  unfold flush_text
  rw [if_pos h]

theorem flush_heading_cp (s : ParserState) :
    (flush_text_as_heading s).current_paragraph = none := by
  unfold flush_text_as_heading
  split
  all_goals rfl

theorem isHeadingTag_exists {t : String} (h : isHeadingTag t = true) :
    ∃ n, classifyTag t = TagKind.heading n := by
  unfold isHeadingTag at h
  cases hc : classifyTag t
  case heading n => exact ⟨n, rfl⟩
  all_goals rw [hc] at h
  all_goals simp at h

theorem handleCellStart_of_no_row (s : ParserState) (h : s.current_row = none) :
    handleCellStart s = s := by
  unfold handleCellStart
  rw [h]

/-! ## Claim theorems: concrete translations -/

/-- Claim C3 (confirmed): translating
`<table><tr><td>a</td><td>b</td></tr><tr><td>c</td></tr></table>` produces
exactly one table, with 2 rows and column count 2 (the maximum number of
cells in any row); cells (1,1), (1,2), (2,1) hold the texts a, b, c, and the
second cell of row 2 stays empty; translation is a total function, so no
error is raised. -/
theorem claim3_table_shape :
    numTables (html_to_docx exTableShape).doc = 1 ∧
    tableRowsAt (html_to_docx exTableShape).doc 0 = some 2 ∧
    tableColsAt (html_to_docx exTableShape).doc 0 = some 2 ∧
    cellTextAt (html_to_docx exTableShape).doc 0 0 0 = some "a" ∧
    cellTextAt (html_to_docx exTableShape).doc 0 0 1 = some "b" ∧
    cellTextAt (html_to_docx exTableShape).doc 0 1 0 = some "c" ∧
    cellTextAt (html_to_docx exTableShape).doc 0 1 1 = some "" := by
  decide

/-- Claim C4 (confirmed): a run from bare inline code carries monospace
font, reduced size (9pt), accent colour and run-level shading, while a run
from a code container carries monospace font, dark foreground and no
run-level shading, its paragraph instead carrying gray shading, a coloured
left border and a left indent — measurably different stylings. -/
theorem claim4_code_styling :
    (html_to_docx exInlineCode).doc = [Block.para { runs := [inlineCodeRun] }] ∧
    (html_to_docx exBlockCode).doc = [Block.para blockCodeParagraph] ∧
    inlineCodeRun.fontName = some "Courier New" ∧
    inlineCodeRun.fontSizePt = some 9 ∧
    inlineCodeRun.fontColor = some (86, 156, 214) ∧
    inlineCodeRun.runShadeFill = some "F5F5F5" ∧
    blockCodeRun.fontName = some "Courier New" ∧
    blockCodeRun.fontColor = some (33, 37, 41) ∧
    blockCodeRun.runShadeFill = none ∧
    blockCodeParagraph.pShadeFills = ["E9ECEF"] ∧
    blockCodeParagraph.pLeftBorders = ["569CD6"] ∧
    blockCodeParagraph.pIndents = [340] ∧
    (Block.para { runs := [inlineCodeRun] } : Block) ≠ Block.para blockCodeParagraph := by
  decide

/-- Claim C5 (confirmed): a start-cell event with no current row is a
structural no-op (the state is returned unchanged), and translating
`<td>orphan</td>` completes, creates no table, and puts the text `orphan`
into a plain paragraph. -/
theorem claim5_orphan_cell :
    ((html_to_docx exOrphanCell).doc =
        [Block.para { runs := [{ text := "orphan" }] }] ∧
      numTables (html_to_docx exOrphanCell).doc = 0) ∧
    (∀ (s : ParserState) (attrs : List (String × String)),
      s.current_row = none → step s (HtmlEvent.startTag "td" attrs) = s) := by
  refine ⟨by decide, ?_⟩
  intro s attrs h
  rw [step_start_eq, hs_td s "td" attrs rfl, handleCellStart_of_no_row s h]

/-- Witness for the hypothesis of claim C5's second conjunct, at the initial
state: its current row is absent and the start-cell event leaves it unchanged. -/
theorem claim5_witness :
    initState.current_row = none ∧
    step initState (HtmlEvent.startTag "td" []) = initState :=
  ⟨rfl, (claim5_orphan_cell).2 initState [] rfl⟩

/-- Claim C7 (confirmed): translating `<h2>Title</h2>` produces exactly one
heading block, at level 2, with the trimmed text `Title`, and no plain
paragraph; moreover after any heading end tag the current paragraph is
dropped, so a heading is never the insertion target of later text. -/
theorem claim7_heading_roundtrip :
    ((html_to_docx exHeading).doc = [Block.heading "Title" 2] ∧
      (html_to_docx exHeading).current_paragraph = none) ∧
    (∀ (s : ParserState) (t : String), isHeadingTag t = true →
      (step s (HtmlEvent.endTag t)).current_paragraph = none) := by
  refine ⟨by decide, ?_⟩
  intro s t h
  obtain ⟨n, hn⟩ := isHeadingTag_exists h
  rw [step_end_eq, he_heading s t hn]
  show (flush_text_as_heading s).current_paragraph = none
  exact flush_heading_cp s

/-- Witness for the hypothesis of claim C7's second conjunct: at the initial
state, an `h2` end tag leaves no current paragraph. -/
theorem claim7_witness :
    isHeadingTag "h2" = true ∧
    (step initState (HtmlEvent.endTag "h2")).current_paragraph = none :=
  ⟨rfl, (claim7_heading_roundtrip).2 initState "h2" rfl⟩

/-- Counterexample for claim C1 as stated: in the malformed fragment
`<table><tr><td>x<code><td>y</td></tr></table>` the second start-cell event
re-selects cell (1,1), whose committed run `x` is destroyed by the
`cell.text = ''` clearing, so the non-whitespace character `x` of a Data
event appears in no run of the output document. -/
theorem claim1_counterexample :
    'x' ∈ dataChars exCellRecleared ∧ ('x'.isWhitespace = false) ∧
    'x' ∉ docChars (html_to_docx exCellRecleared).doc := by
  decide

/-- Counterexample for claim C2 as stated: for the fragment `<h2>Title`
(heading not closed before the stream ends), the trailing flush of
`html_to_docx` commits the heading-buffered text `Title` through the generic
flush path while the heading flag is still set. -/
theorem claim2_counterexample :
    CommitEvent.mk CommitKind.generic "Title" true ∈
      (html_to_docx exUnclosedHeading).trace := by
  decide

/-- Counterexample for claim C9 as stated: a list-container end event with no
matching start drives the nesting counter to −1, a negative value. -/
theorem claim9_counterexample :
    (processEvents initState [HtmlEvent.endTag "ul"]).list_level < 0 := by
  decide

/-! ## Field projection and commutation lemmas -/

theorem flush_list_level (s : ParserState) :
    (flush_text s).list_level = s.list_level := by
  unfold flush_text; split
  all_goals rfl

theorem flushh_list_level (s : ParserState) :
    (flush_text_as_heading s).list_level = s.list_level := by
  unfold flush_text_as_heading; split
  all_goals rfl

theorem hrs_list_level (s : ParserState) :
    (handleRowStart s).list_level = s.list_level := by
  unfold handleRowStart; (try dsimp only); repeat' split
  all_goals rfl

theorem hcs_list_level (s : ParserState) :
    (handleCellStart s).list_level = s.list_level := by
  unfold handleCellStart; dsimp only; repeat' split
  all_goals rfl

theorem hce_list_level (s : ParserState) :
    (handleCellEnd s).list_level = s.list_level := by
  unfold handleCellEnd
  exact flush_list_level s

theorem flush_text_with_level (s : ParserState) (v : Int) :
    flush_text { s with list_level := v } =
      { flush_text s with list_level := v } := by
  cases s; unfold flush_text; dsimp only; split
  all_goals rfl

theorem flushh_with_level (s : ParserState) (v : Int) :
    flush_text_as_heading { s with list_level := v } =
      { flush_text_as_heading s with list_level := v } := by
  cases s; unfold flush_text_as_heading; dsimp only; split
  all_goals rfl

theorem hrs_with_level (s : ParserState) (v : Int) :
    handleRowStart { s with list_level := v } =
      { handleRowStart s with list_level := v } := by
  cases s; unfold handleRowStart; (try dsimp only); repeat' split
  all_goals rfl

theorem hcs_with_level (s : ParserState) (v : Int) :
    handleCellStart { s with list_level := v } =
      { handleCellStart s with list_level := v } := by
  cases s; unfold handleCellStart; (try dsimp only); repeat' split
  all_goals rfl

theorem hce_with_level (s : ParserState) (v : Int) :
    handleCellEnd { s with list_level := v } =
      { handleCellEnd s with list_level := v } := by
  unfold handleCellEnd
  rw [flush_text_with_level]

/-! ## The list counter: balance equation and independence -/

theorem step_list_level (s : ParserState) (e : HtmlEvent) :
    (step s e).list_level = s.list_level + listDelta e := by
  cases e with
  | data d => rw [step_data_eq]; simp [listDelta]
  | startTag t a =>
    rw [step_start_eq]
    cases h : classifyTag t
    case heading n =>
      rw [hs_heading s t a h]; simp only [listDelta, h, flush_list_level]; omega
    case par =>
      rw [hs_par s t a h]; simp only [listDelta, h, addParagraph, flush_list_level]; omega
    case code =>
      rw [hs_code s t a h]; simp only [listDelta, h, flush_list_level]; omega
    case div =>
      rw [hs_div s t a h]; simp only [listDelta, h]
      split
      · simp only [addParagraph, flush_list_level]; omega
      · omega
    case pre =>
      rw [hs_pre s t a h]; simp only [listDelta, h]
      split
      · dsimp only; omega
      · simp only [addParagraph, flush_list_level]; omega
    case ulist =>
      rw [hs_ulist s t a h]; simp only [listDelta, h, flush_list_level]
    case olist =>
      rw [hs_olist s t a h]; simp only [listDelta, h, flush_list_level]
    case li =>
      rw [hs_li s t a h]; simp only [listDelta, h, addParagraph, flush_list_level]; omega
    case table =>
      rw [hs_table s t a h]; simp only [listDelta, h, flush_list_level]; omega
    case thead => rw [hs_thead s t a h]; simp only [listDelta, h]; omega
    case tbody => rw [hs_tbody s t a h]; simp only [listDelta, h]; omega
    case tr => rw [hs_tr s t a h]; simp only [listDelta, h, hrs_list_level]; omega
    case td => rw [hs_td s t a h]; simp only [listDelta, h, hcs_list_level]; omega
    case th => rw [hs_th s t a h]; simp only [listDelta, h, hcs_list_level]; omega
    case br => rw [hs_br s t a h]; simp only [listDelta, h]; omega
    case span => rw [hs_span s t a h]; simp only [listDelta, h]; omega
    case other => rw [hs_other s t a h]; simp only [listDelta, h]; omega
  | endTag t =>
    rw [step_end_eq]
    cases h : classifyTag t
    case heading n =>
      rw [he_heading s t h]; simp only [listDelta, h, flushh_list_level]; omega
    case par => rw [he_par s t h]; simp only [listDelta, h, flush_list_level]; omega
    case code => rw [he_code s t h]; simp only [listDelta, h, flush_list_level]; omega
    case pre =>
      rw [he_pre s t h]; simp only [listDelta, h]
      split
      · simp only [flush_list_level]; omega
      · simp only [flush_list_level]; omega
    case div =>
      rw [he_div s t h]; simp only [listDelta, h]
      split
      · dsimp only; omega
      · omega
    case ulist => rw [he_ulist s t h]; simp only [listDelta, h]; omega
    case olist => rw [he_olist s t h]; simp only [listDelta, h]; omega
    case li => rw [he_li s t h]; simp only [listDelta, h, flush_list_level]; omega
    case table => rw [he_table s t h]; simp only [listDelta, h]; omega
    case tr => rw [he_tr s t h]; simp only [listDelta, h]; omega
    case td => rw [he_td s t h]; simp only [listDelta, h, hce_list_level]; omega
    case th => rw [he_th s t h]; simp only [listDelta, h, hce_list_level]; omega
    case thead => rw [he_thead s t h]; simp only [listDelta, h]; omega
    case tbody => rw [he_tbody s t h]; simp only [listDelta, h]; omega
    case br => rw [he_br s t h]; simp only [listDelta, h]; omega
    case span => rw [he_span s t h]; simp only [listDelta, h]; omega
    case other => rw [he_other s t h]; simp only [listDelta, h]; omega

theorem processEvents_cons (s : ParserState) (e : HtmlEvent) (es : List HtmlEvent) :
    processEvents s (e :: es) = processEvents (step s e) es := rfl

theorem processEvents_list_level (es : List HtmlEvent) (s : ParserState) :
    (processEvents s es).list_level = s.list_level + listBalance es := by
  induction es generalizing s with
  | nil => simp [processEvents, listBalance]
  | cons e es ih =>
    rw [processEvents_cons, ih, step_list_level]
    simp [listBalance]
    omega

theorem step_level_indep (s : ParserState) (v : Int) (e : HtmlEvent) :
    eraseListLevel (step { s with list_level := v } e) =
      eraseListLevel (step s e) := by
  cases e with
  | data d => rfl
  | startTag t a =>
    rw [step_start_eq, step_start_eq]
    cases h : classifyTag t
    case heading n =>
      rw [hs_heading _ t a h, hs_heading s t a h, flush_text_with_level]; rfl
    case par =>
      rw [hs_par _ t a h, hs_par s t a h, flush_text_with_level]; rfl
    case code =>
      rw [hs_code _ t a h, hs_code s t a h, flush_text_with_level]; rfl
    case div =>
      rw [hs_div _ t a h, hs_div s t a h]
      split
      · rw [flush_text_with_level]; rfl
      · rfl
    case pre =>
      rw [hs_pre _ t a h, hs_pre s t a h]
      have hicb : ({ s with list_level := v } : ParserState).in_code_block
          = s.in_code_block := rfl
      rw [hicb]
      split
      · rfl
      · rw [flush_text_with_level]; rfl
    case ulist =>
      rw [hs_ulist _ t a h, hs_ulist s t a h, flush_text_with_level]; rfl
    case olist =>
      rw [hs_olist _ t a h, hs_olist s t a h, flush_text_with_level]; rfl
    case li =>
      rw [hs_li _ t a h, hs_li s t a h, flush_text_with_level]; rfl
    case table =>
      rw [hs_table _ t a h, hs_table s t a h, flush_text_with_level]; rfl
    case thead => rw [hs_thead _ t a h, hs_thead s t a h]; rfl
    case tbody => rw [hs_tbody _ t a h, hs_tbody s t a h]; rfl
    case tr => rw [hs_tr _ t a h, hs_tr s t a h, hrs_with_level]; rfl
    case td => rw [hs_td _ t a h, hs_td s t a h, hcs_with_level]; rfl
    case th => rw [hs_th _ t a h, hs_th s t a h, hcs_with_level]; rfl
    case br => rw [hs_br _ t a h, hs_br s t a h]; rfl
    case span => rw [hs_span _ t a h, hs_span s t a h]; rfl
    case other => rw [hs_other _ t a h, hs_other s t a h]; rfl
  | endTag t =>
    rw [step_end_eq, step_end_eq]
    cases h : classifyTag t
    case heading n =>
      rw [he_heading _ t h, he_heading s t h, flushh_with_level]; rfl
    case par => rw [he_par _ t h, he_par s t h, flush_text_with_level]; rfl
    case code => rw [he_code _ t h, he_code s t h, flush_text_with_level]; rfl
    case pre =>
      rw [he_pre _ t h, he_pre s t h]
      have hicb : ({ s with list_level := v } : ParserState).in_code_block
          = s.in_code_block := rfl
      rw [hicb]
      split
      · rw [flush_text_with_level]; rfl
      · rw [flush_text_with_level]; rfl
    case div =>
      rw [he_div _ t h, he_div s t h]
      have hicb : ({ s with list_level := v } : ParserState).in_code_block
          = s.in_code_block := rfl
      rw [hicb]
      split
      · rfl
      · rfl
    case ulist => rw [he_ulist _ t h, he_ulist s t h]; rfl
    case olist => rw [he_olist _ t h, he_olist s t h]; rfl
    case li => rw [he_li _ t h, he_li s t h, flush_text_with_level]; rfl
    case table => rw [he_table _ t h, he_table s t h]; rfl
    case tr => rw [he_tr _ t h, he_tr s t h]; rfl
    case td => rw [he_td _ t h, he_td s t h, hce_with_level]; rfl
    case th => rw [he_th _ t h, he_th s t h, hce_with_level]; rfl
    case thead => rw [he_thead _ t h, he_thead s t h]; rfl
    case tbody => rw [he_tbody _ t h, he_tbody s t h]; rfl
    case br => rw [he_br _ t h, he_br s t h]; rfl
    case span => rw [he_span _ t h, he_span s t h]; rfl
    case other => rw [he_other _ t h, he_other s t h]; rfl

/-- Claim C9 (corrected): the list nesting counter equals the number of
list-container starts minus list-container ends of the processed stream — so
it is non-negative for every prefix exactly when no prefix closes more list
containers than it opened, but an unmatched list-container end tag drives it
negative — and its value never influences any other component of the parser
state or the document (list items are always styled as bullets regardless of
depth). -/
theorem claim9_list_depth :
    (∀ es : List HtmlEvent,
        (processEvents initState es).list_level = listBalance es) ∧
    (∀ es pre : List HtmlEvent, pre <+: es →
        (∀ q : List HtmlEvent, q <+: es → 0 ≤ listBalance q) →
        0 ≤ (processEvents initState pre).list_level) ∧
    (∀ (s : ParserState) (v : Int) (e : HtmlEvent),
        eraseListLevel (step { s with list_level := v } e) =
          eraseListLevel (step s e)) := by
  refine ⟨?_, ?_, step_level_indep⟩
  · intro es
    rw [processEvents_list_level]
    show (0 : Int) + listBalance es = listBalance es
    omega
  · intro es pre hpre hq
    rw [processEvents_list_level]
    have := hq pre hpre
    show (0 : Int) + listBalance pre ≥ 0
    omega

/-- Witness for the hypotheses of claim C9's second conjunct, at the
stream `<ul></ul>` and its one-event prefix: every prefix has a
non-negative balance and the counter is non-negative after the prefix. -/
theorem claim9_witness :
    ([HtmlEvent.startTag "ul" []] : List HtmlEvent) <+:
        [HtmlEvent.startTag "ul" [], HtmlEvent.endTag "ul"] ∧
    0 ≤ (processEvents initState [HtmlEvent.startTag "ul" []]).list_level := by
  constructor
  · exact ⟨[HtmlEvent.endTag "ul"], rfl⟩
  · refine claim9_list_depth.2.1 _ _ ⟨[HtmlEvent.endTag "ul"], rfl⟩ ?_
    intro q hq
    obtain ⟨r, hr⟩ := hq
    rcases q with _ | ⟨a, _ | ⟨b, _ | ⟨c, q2⟩⟩⟩
    · decide
    · rw [List.cons_append, List.nil_append] at hr
      injection hr with h1 h2
      subst h1
      decide
    · rw [List.cons_append, List.cons_append, List.nil_append] at hr
      injection hr with h1 hr2
      injection hr2 with h2 hr3
      subst h1
      subst h2
      decide
    · exfalso
      have hl := congrArg List.length hr
      simp at hl

/-! ## The header-section flag: written but never read -/

theorem flush_text_with_header (s : ParserState) (b : Bool) :
    flush_text { s with in_table_header := b } =
      { flush_text s with in_table_header := b } := by
  cases s; unfold flush_text; (try dsimp only); split
  all_goals rfl

theorem flushh_with_header (s : ParserState) (b : Bool) :
    flush_text_as_heading { s with in_table_header := b } =
      { flush_text_as_heading s with in_table_header := b } := by
  cases s; unfold flush_text_as_heading; (try dsimp only); split
  all_goals rfl

theorem hrs_with_header (s : ParserState) (b : Bool) :
    handleRowStart { s with in_table_header := b } =
      { handleRowStart s with in_table_header := b } := by
  cases s; unfold handleRowStart; (try dsimp only); repeat' split
  all_goals rfl

theorem hcs_with_header (s : ParserState) (b : Bool) :
    handleCellStart { s with in_table_header := b } =
      { handleCellStart s with in_table_header := b } := by
  cases s; unfold handleCellStart; (try dsimp only); repeat' split
  all_goals rfl

theorem hce_with_header (s : ParserState) (b : Bool) :
    handleCellEnd { s with in_table_header := b } =
      { handleCellEnd s with in_table_header := b } := by
  unfold handleCellEnd
  rw [flush_text_with_header]

theorem step_header_indep (s : ParserState) (b : Bool) (e : HtmlEvent) :
    eraseHeaderFlag (step { s with in_table_header := b } e) =
      eraseHeaderFlag (step s e) := by
  cases e with
  | data d => rfl
  | startTag t a =>
    rw [step_start_eq, step_start_eq]
    cases h : classifyTag t
    case heading n =>
      rw [hs_heading _ t a h, hs_heading s t a h, flush_text_with_header]; rfl
    case par =>
      rw [hs_par _ t a h, hs_par s t a h, flush_text_with_header]; rfl
    case code =>
      rw [hs_code _ t a h, hs_code s t a h, flush_text_with_header]; rfl
    case div =>
      rw [hs_div _ t a h, hs_div s t a h]
      split
      · rw [flush_text_with_header]; rfl
      · rfl
    case pre =>
      rw [hs_pre _ t a h, hs_pre s t a h]
      have hicb : ({ s with in_table_header := b } : ParserState).in_code_block
          = s.in_code_block := rfl
      rw [hicb]
      split
      · rfl
      · rw [flush_text_with_header]; rfl
    case ulist =>
      rw [hs_ulist _ t a h, hs_ulist s t a h, flush_text_with_header]; rfl
    case olist =>
      rw [hs_olist _ t a h, hs_olist s t a h, flush_text_with_header]; rfl
    case li =>
      rw [hs_li _ t a h, hs_li s t a h, flush_text_with_header]; rfl
    case table =>
      rw [hs_table _ t a h, hs_table s t a h, flush_text_with_header]; rfl
    case thead => rw [hs_thead _ t a h, hs_thead s t a h]
    case tbody => rw [hs_tbody _ t a h, hs_tbody s t a h]
    case tr => rw [hs_tr _ t a h, hs_tr s t a h, hrs_with_header]; rfl
    case td => rw [hs_td _ t a h, hs_td s t a h, hcs_with_header]; rfl
    case th => rw [hs_th _ t a h, hs_th s t a h, hcs_with_header]; rfl
    case br => rw [hs_br _ t a h, hs_br s t a h]; rfl
    case span => rw [hs_span _ t a h, hs_span s t a h]; rfl
    case other => rw [hs_other _ t a h, hs_other s t a h]; rfl
  | endTag t =>
    rw [step_end_eq, step_end_eq]
    cases h : classifyTag t
    case heading n =>
      rw [he_heading _ t h, he_heading s t h, flushh_with_header]; rfl
    case par => rw [he_par _ t h, he_par s t h, flush_text_with_header]; rfl
    case code => rw [he_code _ t h, he_code s t h, flush_text_with_header]; rfl
    case pre =>
      rw [he_pre _ t h, he_pre s t h]
      have hicb : ({ s with in_table_header := b } : ParserState).in_code_block
          = s.in_code_block := rfl
      rw [hicb]
      split
      · rw [flush_text_with_header]; rfl
      · rw [flush_text_with_header]; rfl
    case div =>
      rw [he_div _ t h, he_div s t h]
      have hicb : ({ s with in_table_header := b } : ParserState).in_code_block
          = s.in_code_block := rfl
      rw [hicb]
      split
      · rfl
      · rfl
    case ulist => rw [he_ulist _ t h, he_ulist s t h]; rfl
    case olist => rw [he_olist _ t h, he_olist s t h]; rfl
    case li => rw [he_li _ t h, he_li s t h, flush_text_with_header]; rfl
    case table => rw [he_table _ t h, he_table s t h]; rfl
    case tr => rw [he_tr _ t h, he_tr s t h]; rfl
    case td => rw [he_td _ t h, he_td s t h, hce_with_header]; rfl
    case th => rw [he_th _ t h, he_th s t h, hce_with_header]; rfl
    case thead => rw [he_thead _ t h, he_thead s t h]; rfl
    case tbody => rw [he_tbody _ t h, he_tbody s t h]; rfl
    case br => rw [he_br _ t h, he_br s t h]; rfl
    case span => rw [he_span _ t h, he_span s t h]; rfl
    case other => rw [he_other _ t h, he_other s t h]; rfl

theorem eraseHeaderFlag_eta (s : ParserState) :
    { eraseHeaderFlag s with in_table_header := s.in_table_header } = s := by
  cases s; rfl

theorem eraseHeaderFlag_idem (s : ParserState) :
    eraseHeaderFlag (eraseHeaderFlag s) = eraseHeaderFlag s := rfl

theorem step_header_congr {s1 s2 : ParserState} (e : HtmlEvent)
    (h : eraseHeaderFlag s1 = eraseHeaderFlag s2) :
    eraseHeaderFlag (step s1 e) = eraseHeaderFlag (step s2 e) := by
  have h1 := step_header_indep (eraseHeaderFlag s1) s1.in_table_header e
  have h2 := step_header_indep (eraseHeaderFlag s2) s2.in_table_header e
  rw [eraseHeaderFlag_eta] at h1 h2
  rw [h1, h2, h]

theorem flush_header_congr {s1 s2 : ParserState}
    (h : eraseHeaderFlag s1 = eraseHeaderFlag s2) :
    eraseHeaderFlag (flush_text s1) = eraseHeaderFlag (flush_text s2) := by
  have h1 := flush_text_with_header (eraseHeaderFlag s1) s1.in_table_header
  have h2 := flush_text_with_header (eraseHeaderFlag s2) s2.in_table_header
  rw [eraseHeaderFlag_eta] at h1 h2
  rw [h1, h2, h]
  rfl

theorem thead_start_erase (s : ParserState) (a : List (String × String)) :
    eraseHeaderFlag (step s (HtmlEvent.startTag "thead" a)) = eraseHeaderFlag s := by
  rw [step_start_eq, hs_thead s "thead" a rfl]; rfl

theorem tbody_start_erase (s : ParserState) (a : List (String × String)) :
    eraseHeaderFlag (step s (HtmlEvent.startTag "tbody" a)) = eraseHeaderFlag s := by
  rw [step_start_eq, hs_tbody s "tbody" a rfl]; rfl

theorem thead_end_erase (s : ParserState) :
    eraseHeaderFlag (step s (HtmlEvent.endTag "thead")) = eraseHeaderFlag s := by
  rw [step_end_eq]
  rw [he_thead s "thead" rfl]

theorem tbody_end_erase (s : ParserState) :
    eraseHeaderFlag (step s (HtmlEvent.endTag "tbody")) = eraseHeaderFlag s := by
  rw [step_end_eq]
  rw [he_tbody s "tbody" rfl]

theorem processEvents_header_congr {es fs : List HtmlEvent}
    (hef : TheadErased es fs) :
    ∀ s1 s2 : ParserState, eraseHeaderFlag s1 = eraseHeaderFlag s2 →
      eraseHeaderFlag (processEvents s1 es) = eraseHeaderFlag (processEvents s2 fs) := by
  induction hef with
  | nil => intro s1 s2 h; exact h
  | keep e he hrec ih =>
    intro s1 s2 h
    rw [processEvents_cons, processEvents_cons]
    exact ih _ _ (step_header_congr e h)
  | replaceStart a b hrec ih =>
    intro s1 s2 h
    rw [processEvents_cons, processEvents_cons]
    refine ih _ _ ?_
    rw [thead_start_erase, tbody_start_erase, h]
  | replaceEnd hrec ih =>
    intro s1 s2 h
    rw [processEvents_cons, processEvents_cons]
    refine ih _ _ ?_
    rw [thead_end_erase, tbody_end_erase, h]
  | dropStart a hrec ih =>
    intro s1 s2 h
    rw [processEvents_cons]
    refine ih _ _ ?_
    rw [thead_start_erase, h]
  | dropEnd hrec ih =>
    intro s1 s2 h
    rw [processEvents_cons]
    refine ih _ _ ?_
    rw [thead_end_erase, h]

/-- Claim C10 (confirmed): the header-section flag is written by the
`thead`/`tbody` handlers but never read, so replacing every `thead` tag by a
`tbody` tag or removing it leaves the produced document (and the whole state
apart from the flag itself) unchanged; in particular no handler's result
depends on the flag's value. -/
theorem claim10_thead_flag_inert :
    (∀ es fs : List HtmlEvent, TheadErased es fs →
        (html_to_docx es).doc = (html_to_docx fs).doc) ∧
    (∀ (s : ParserState) (b : Bool) (e : HtmlEvent),
        eraseHeaderFlag (step { s with in_table_header := b } e) =
          eraseHeaderFlag (step s e)) := by
  refine ⟨?_, step_header_indep⟩
  intro es fs hef
  have h := processEvents_header_congr hef initState initState rfl
  have h2 := flush_header_congr h
  have h3 : (eraseHeaderFlag (html_to_docx es)).doc =
      (eraseHeaderFlag (html_to_docx fs)).doc := congrArg ParserState.doc h2
  exact h3

/-- Witness for the hypothesis of claim C10: the table fragment with a
`thead` section translates to the same document as the fragment with the
`thead` tags replaced by `tbody` tags. -/
theorem claim10_witness :
    TheadErased exWithThead exWithTheadReplaced ∧
      (html_to_docx exWithThead).doc = (html_to_docx exWithTheadReplaced).doc := by
  have hd : TheadErased exWithThead exWithTheadReplaced := by
    apply TheadErased.keep _ (by decide)
    apply TheadErased.replaceStart
    apply TheadErased.keep _ (by decide)
    apply TheadErased.keep _ (by decide)
    apply TheadErased.keep _ (by decide)
    apply TheadErased.keep _ (by decide)
    apply TheadErased.keep _ (by decide)
    apply TheadErased.replaceEnd
    apply TheadErased.keep _ (by decide)
    apply TheadErased.keep _ (by decide)
    apply TheadErased.keep _ (by decide)
    apply TheadErased.keep _ (by decide)
    apply TheadErased.keep _ (by decide)
    apply TheadErased.keep _ (by decide)
    apply TheadErased.keep _ (by decide)
    apply TheadErased.keep _ (by decide)
    exact TheadErased.nil
  exact ⟨hd, claim10_thead_flag_inert.1 _ _ hd⟩

/-! ## The heading flag and the commit trace -/

theorem flush_in_heading (s : ParserState) :
    (flush_text s).in_heading = s.in_heading := by
  unfold flush_text; split
  all_goals rfl

theorem flushh_in_heading (s : ParserState) :
    (flush_text_as_heading s).in_heading = s.in_heading := by
  unfold flush_text_as_heading; split
  all_goals rfl

theorem hrs_in_heading (s : ParserState) :
    (handleRowStart s).in_heading = s.in_heading := by
  unfold handleRowStart; (try dsimp only); repeat' split
  all_goals rfl

theorem hcs_in_heading (s : ParserState) :
    (handleCellStart s).in_heading = s.in_heading := by
  unfold handleCellStart; dsimp only; repeat' split
  all_goals rfl

theorem hce_in_heading (s : ParserState) :
    (handleCellEnd s).in_heading = s.in_heading := by
  unfold handleCellEnd
  exact flush_in_heading s

theorem step_in_heading (s : ParserState) (e : HtmlEvent) :
    (step s e).in_heading = nextInHeading s.in_heading e := by
  cases e with
  | data d => rfl
  | startTag t a =>
    rw [step_start_eq]
    show (handle_starttag s t a).in_heading =
      (match classifyTag t with
        | TagKind.heading _ => true
        | _ => s.in_heading)
    cases h : classifyTag t
    case heading n => rw [hs_heading s t a h]
    case par => rw [hs_par s t a h]; exact flush_in_heading s
    case code => rw [hs_code s t a h]; exact flush_in_heading s
    case div =>
      rw [hs_div s t a h]
      split
      · exact flush_in_heading s
      · rfl
    case pre =>
      rw [hs_pre s t a h]
      split
      · rfl
      · exact flush_in_heading s
    case ulist => rw [hs_ulist s t a h]; exact flush_in_heading s
    case olist => rw [hs_olist s t a h]; exact flush_in_heading s
    case li => rw [hs_li s t a h]; exact flush_in_heading s
    case table => rw [hs_table s t a h]; exact flush_in_heading s
    case thead => rw [hs_thead s t a h]
    case tbody => rw [hs_tbody s t a h]
    case tr => rw [hs_tr s t a h]; exact hrs_in_heading s
    case td => rw [hs_td s t a h]; exact hcs_in_heading s
    case th => rw [hs_th s t a h]; exact hcs_in_heading s
    case br => rw [hs_br s t a h]
    case span => rw [hs_span s t a h]
    case other => rw [hs_other s t a h]
  | endTag t =>
    rw [step_end_eq]
    show (handle_endtag s t).in_heading =
      (match classifyTag t with
        | TagKind.heading _ => false
        | _ => s.in_heading)
    cases h : classifyTag t
    case heading n => rw [he_heading s t h]
    case par => rw [he_par s t h]; exact flush_in_heading s
    case code => rw [he_code s t h]; exact flush_in_heading s
    case pre =>
      rw [he_pre s t h]
      split
      · exact flush_in_heading s
      · exact flush_in_heading s
    case div =>
      rw [he_div s t h]
      split
      · rfl
      · rfl
    case ulist => rw [he_ulist s t h]
    case olist => rw [he_olist s t h]
    case li => rw [he_li s t h]; exact flush_in_heading s
    case table => rw [he_table s t h]
    case tr => rw [he_tr s t h]
    case td => rw [he_td s t h]; exact hce_in_heading s
    case th => rw [he_th s t h]; exact hce_in_heading s
    case thead => rw [he_thead s t h]
    case tbody => rw [he_tbody s t h]
    case br => rw [he_br s t h]
    case span => rw [he_span s t h]
    case other => rw [he_other s t h]

theorem flush_trace_mem {s : ParserState} {c : CommitEvent}
    (h : c ∈ (flush_text s).trace) :
    c ∈ s.trace ∨ c = ⟨CommitKind.generic, s.text_buffer, s.in_heading⟩ := by
  unfold flush_text at h
  split at h
  · exact Or.inl h
  · rcases List.mem_append.mp h with h1 | h2
    · exact Or.inl h1
    · exact Or.inr (List.mem_singleton.mp h2)

theorem flushh_trace_mem {s : ParserState} {c : CommitEvent}
    (h : c ∈ (flush_text_as_heading s).trace) :
    c ∈ s.trace ∨
      c = ⟨CommitKind.heading, pyStrip s.text_buffer, s.in_heading⟩ := by
  unfold flush_text_as_heading at h
  split at h
  · exact Or.inl h
  · rcases List.mem_append.mp h with h1 | h2
    · exact Or.inl h1
    · exact Or.inr (List.mem_singleton.mp h2)

theorem hrs_trace (s : ParserState) :
    (handleRowStart s).trace = s.trace := by
  unfold handleRowStart; (try dsimp only); repeat' split
  all_goals rfl

theorem hcs_trace (s : ParserState) :
    (handleCellStart s).trace = s.trace := by
  unfold handleCellStart; dsimp only; repeat' split
  all_goals rfl

theorem step_trace_extend {s : ParserState} {e : HtmlEvent} {c : CommitEvent}
    (h : c ∈ (step s e).trace) :
    c ∈ s.trace ∨ c.inHeading = s.in_heading := by
  cases e with
  | data d => exact Or.inl h
  | startTag t a =>
    rw [step_start_eq] at h
    cases ht : classifyTag t
    case heading n =>
      rw [hs_heading s t a ht] at h
      rcases flush_trace_mem h with h1 | h2
      · exact Or.inl h1
      · exact Or.inr (by rw [h2])
    case par =>
      rw [hs_par s t a ht] at h
      rcases flush_trace_mem h with h1 | h2
      · exact Or.inl h1
      · exact Or.inr (by rw [h2])
    case code =>
      rw [hs_code s t a ht] at h
      rcases flush_trace_mem h with h1 | h2
      · exact Or.inl h1
      · exact Or.inr (by rw [h2])
    case div =>
      rw [hs_div s t a ht] at h
      split at h
      · rcases flush_trace_mem h with h1 | h2
        · exact Or.inl h1
        · exact Or.inr (by rw [h2])
      · exact Or.inl h
    case pre =>
      rw [hs_pre s t a ht] at h
      split at h
      · exact Or.inl h
      · rcases flush_trace_mem h with h1 | h2
        · exact Or.inl h1
        · exact Or.inr (by rw [h2])
    case ulist =>
      rw [hs_ulist s t a ht] at h
      rcases flush_trace_mem h with h1 | h2
      · exact Or.inl h1
      · exact Or.inr (by rw [h2])
    case olist =>
      rw [hs_olist s t a ht] at h
      rcases flush_trace_mem h with h1 | h2
      · exact Or.inl h1
      · exact Or.inr (by rw [h2])
    case li =>
      rw [hs_li s t a ht] at h
      rcases flush_trace_mem h with h1 | h2
      · exact Or.inl h1
      · exact Or.inr (by rw [h2])
    case table =>
      rw [hs_table s t a ht] at h
      rcases flush_trace_mem h with h1 | h2
      · exact Or.inl h1
      · exact Or.inr (by rw [h2])
    case thead => rw [hs_thead s t a ht] at h; exact Or.inl h
    case tbody => rw [hs_tbody s t a ht] at h; exact Or.inl h
    case tr => rw [hs_tr s t a ht, hrs_trace] at h; exact Or.inl h
    case td => rw [hs_td s t a ht, hcs_trace] at h; exact Or.inl h
    case th => rw [hs_th s t a ht, hcs_trace] at h; exact Or.inl h
    case br => rw [hs_br s t a ht] at h; exact Or.inl h
    case span => rw [hs_span s t a ht] at h; exact Or.inl h
    case other => rw [hs_other s t a ht] at h; exact Or.inl h
  | endTag t =>
    rw [step_end_eq] at h
    cases ht : classifyTag t
    case heading n =>
      rw [he_heading s t ht] at h
      rcases flushh_trace_mem h with h1 | h2
      · exact Or.inl h1
      · exact Or.inr (by rw [h2])
    case par =>
      rw [he_par s t ht] at h
      rcases flush_trace_mem h with h1 | h2
      · exact Or.inl h1
      · exact Or.inr (by rw [h2])
    case code =>
      rw [he_code s t ht] at h
      rcases flush_trace_mem h with h1 | h2
      · exact Or.inl h1
      · exact Or.inr (by rw [h2])
    case pre =>
      rw [he_pre s t ht] at h
      split at h
      all_goals
        rcases flush_trace_mem h with h1 | h2
      · exact Or.inl h1
      · exact Or.inr (by rw [h2])
      · exact Or.inl h1
      · exact Or.inr (by rw [h2])
    case div =>
      rw [he_div s t ht] at h
      split at h
      · exact Or.inl h
      · exact Or.inl h
    case ulist => rw [he_ulist s t ht] at h; exact Or.inl h
    case olist => rw [he_olist s t ht] at h; exact Or.inl h
    case li =>
      rw [he_li s t ht] at h
      rcases flush_trace_mem h with h1 | h2
      · exact Or.inl h1
      · exact Or.inr (by rw [h2])
    case table => rw [he_table s t ht] at h; exact Or.inl h
    case tr => rw [he_tr s t ht] at h; exact Or.inl h
    case td =>
      rw [he_td s t ht] at h
      rcases flush_trace_mem (h : c ∈ (flush_text s).trace) with h1 | h2
      · exact Or.inl h1
      · exact Or.inr (by rw [h2])
    case th =>
      rw [he_th s t ht] at h
      rcases flush_trace_mem (h : c ∈ (flush_text s).trace) with h1 | h2
      · exact Or.inl h1
      · exact Or.inr (by rw [h2])
    case thead => rw [he_thead s t ht] at h; exact Or.inl h
    case tbody => rw [he_tbody s t ht] at h; exact Or.inl h
    case br => rw [he_br s t ht] at h; exact Or.inl h
    case span => rw [he_span s t ht] at h; exact Or.inl h
    case other => rw [he_other s t ht] at h; exact Or.inl h

theorem step_trace_heading_end {s : ParserState} {t : String} {n : Nat}
    (ht : classifyTag t = TagKind.heading n) {c : CommitEvent}
    (h : c ∈ (step s (HtmlEvent.endTag t)).trace) :
    c ∈ s.trace ∨ c.kind = CommitKind.heading := by
  rw [step_end_eq, he_heading s t ht] at h
  rcases flushh_trace_mem h with h1 | h2
  · exact Or.inl h1
  · exact Or.inr (by rw [h2])

theorem step_trace_nonflushing {s : ParserState} {e : HtmlEvent}
    (hnf : nonFlushing e = true) :
    (step s e).trace = s.trace := by
  cases e with
  | data d => rfl
  | startTag t a =>
    rw [step_start_eq]
    simp only [nonFlushing, startFlushes] at hnf
    cases ht : classifyTag t
    all_goals rw [ht] at hnf
    case heading n => simp at hnf
    case par => simp at hnf
    case code => simp at hnf
    case div =>
      rw [hs_div s t a ht]
      simp at hnf
      rw [if_neg]
      simp [hnf]
    case pre => simp at hnf
    case ulist => simp at hnf
    case olist => simp at hnf
    case li => simp at hnf
    case table => simp at hnf
    case thead => rw [hs_thead s t a ht]
    case tbody => rw [hs_tbody s t a ht]
    case tr => rw [hs_tr s t a ht]; exact hrs_trace s
    case td => rw [hs_td s t a ht]; exact hcs_trace s
    case th => rw [hs_th s t a ht]; exact hcs_trace s
    case br => rw [hs_br s t a ht]
    case span => rw [hs_span s t a ht]
    case other => rw [hs_other s t a ht]
  | endTag t =>
    rw [step_end_eq]
    simp only [nonFlushing, endFlushes] at hnf
    cases ht : classifyTag t
    all_goals rw [ht] at hnf
    case heading n => simp at hnf
    case par => simp at hnf
    case code => simp at hnf
    case pre => simp at hnf
    case div =>
      rw [he_div s t ht]
      split
      · rfl
      · rfl
    case ulist => rw [he_ulist s t ht]
    case olist => rw [he_olist s t ht]
    case li => simp at hnf
    case table => rw [he_table s t ht]
    case tr => rw [he_tr s t ht]
    case td => simp at hnf
    case th => simp at hnf
    case thead => rw [he_thead s t ht]
    case tbody => rw [he_tbody s t ht]
    case br => rw [he_br s t ht]
    case span => rw [he_span s t ht]
    case other => rw [he_other s t ht]

theorem processEvents_heading_safe (es : List HtmlEvent) :
    ∀ s : ParserState, headingSafe s.in_heading es = true →
      CleanTrace s.trace →
      CleanTrace (processEvents s es).trace ∧
        (processEvents s es).in_heading = false := by
  induction es with
  | nil =>
    intro s h hP
    refine ⟨hP, ?_⟩
    unfold headingSafe at h
    simp at h
    exact h
  | cons e es ih =>
    intro s h hP
    unfold headingSafe at h
    rw [Bool.and_eq_true] at h
    obtain ⟨h1, h2⟩ := h
    rw [processEvents_cons]
    apply ih (step s e)
    · rw [step_in_heading]
      exact h2
    · cases hih : s.in_heading
      case false =>
        intro c hc hk
        rcases step_trace_extend hc with hm | hflag
        · exact hP c hm hk
        · rw [hflag, hih]
      case true =>
        rw [hih] at h1
        cases hhe : isHeadingEnd e
        case false =>
          rw [hhe] at h1
          simp at h1
          intro c hc hk
          rw [step_trace_nonflushing h1] at hc
          exact hP c hc hk
        case true =>
          cases e with
          | data d => simp [isHeadingEnd] at hhe
          | startTag t2 a2 => simp [isHeadingEnd] at hhe
          | endTag t2 =>
            unfold isHeadingEnd at hhe
            obtain ⟨n, hn⟩ := isHeadingTag_exists hhe
            intro c hc hk
            rcases step_trace_heading_end hn hc with hm | hkd
            · exact hP c hm hk
            · rw [hk] at hkd
              simp at hkd

/-- Claim C2 (corrected): provided the stream closes every heading before it
ends, and only non-flushing events (character data, line breaks, spans and
other events that invoke no flush) occur between a heading start tag and its
end tag, all text buffered while the heading flag is set is committed only by
the heading-specific flush at the heading end tag: no generic flush ever
commits while the heading flag is set.  The restriction is necessary: a
flush-triggering tag inside a heading, or a stream ending inside a heading,
routes the heading-buffered text through the generic flush instead. -/
theorem claim2_heading_commits (es : List HtmlEvent)
    (h : headingSafe false es = true) :
    ∀ c ∈ (html_to_docx es).trace, c.kind = CommitKind.generic →
      c.inHeading = false := by
  have hsafe : headingSafe initState.in_heading es = true := h
  have hmain := processEvents_heading_safe es initState hsafe
    (by intro c hc hk; exact absurd hc (List.not_mem_nil c))
  intro c hc hk
  rcases flush_trace_mem hc with h1 | h2
  · exact hmain.1 c h1 hk
  · rw [h2]
    exact hmain.2

/-- Witness for the hypothesis of claim C2, at the stream
`<h2>T</h2><p>x</p>`: it is heading-safe, and its one generic commit (the
paragraph text `x`) indeed carries a cleared heading flag. -/
theorem claim2_witness :
    headingSafe false exHeadingThenParagraph = true ∧
    CommitEvent.mk CommitKind.generic "x" false ∈
      (html_to_docx exHeadingThenParagraph).trace ∧
    (CommitEvent.mk CommitKind.generic "x" false).inHeading = false :=
  ⟨by decide, by decide,
    claim2_heading_commits exHeadingThenParagraph (by decide) _ (by decide) rfl⟩

/-! ## Document growth: tables never shrink -/

theorem modifyIdx_get_self (f : α → α) (i : Nat) (l : List α) :
    (modifyIdx f i l).get? i = (l.get? i).map f := by
  induction l generalizing i with
  | nil => cases i <;> rfl
  | cons a l ih =>
    cases i with
    | zero => rfl
    | succ n => exact ih n

theorem modifyIdx_get_ne (f : α → α) (i j : Nat) (l : List α) (h : j ≠ i) :
    (modifyIdx f i l).get? j = l.get? j := by
  induction l generalizing i j with
  | nil => cases i <;> rfl
  | cons a l ih =>
    cases i with
    | zero =>
      cases j with
      | zero => exact absurd rfl h
      | succ m => rfl
    | succ n =>
      cases j with
      | zero => rfl
      | succ m => exact ih n m (fun hc => h (by rw [hc]))

theorem modifyIdx_length (f : α → α) (i : Nat) (l : List α) :
    (modifyIdx f i l).length = l.length := by
  induction l generalizing i with
  | nil => cases i <;> rfl
  | cons a l ih =>
    cases i with
    | zero => rfl
    | succ n => simp [modifyIdx, ih n]

theorem get?_append_left {l1 l2 : List α} {i : Nat} {b : α}
    (h : l1.get? i = some b) : (l1 ++ l2).get? i = some b := by
  induction l1 generalizing i with
  | nil => simp at h
  | cons a l ih =>
    cases i with
    | zero => exact h
    | succ n => exact ih h

theorem TableLe_refl (t : Table) : TableLe t t :=
  ⟨le_refl _, le_refl _, fun r row hr => ⟨row, hr, le_refl _⟩⟩

theorem TableLe_trans {t1 t2 t3 : Table} (h1 : TableLe t1 t2)
    (h2 : TableLe t2 t3) : TableLe t1 t3 := by
  obtain ⟨hc1, hr1, hw1⟩ := h1
  obtain ⟨hc2, hr2, hw2⟩ := h2
  refine ⟨le_trans hc1 hc2, le_trans hr1 hr2, ?_⟩
  intro r row hr
  obtain ⟨row2, hr2a, hl2⟩ := hw1 r row hr
  obtain ⟨row3, hr3a, hl3⟩ := hw2 r row2 hr2a
  exact ⟨row3, hr3a, le_trans hl2 hl3⟩

theorem BlockLe_refl (b : Block) : BlockLe b b := by
  cases b with
  | para p => trivial
  | heading t n => trivial
  | table t => exact TableLe_refl t

theorem BlockLe_trans {b1 b2 b3 : Block} (h1 : BlockLe b1 b2)
    (h2 : BlockLe b2 b3) : BlockLe b1 b3 := by
  cases b1 <;> cases b2 <;> cases b3 <;> try trivial
  exact TableLe_trans h1 h2

theorem DocLe_refl (d : List Block) : DocLe d d :=
  fun i b hb => ⟨b, hb, BlockLe_refl b⟩

theorem DocLe_trans {d1 d2 d3 : List Block} (h1 : DocLe d1 d2)
    (h2 : DocLe d2 d3) : DocLe d1 d3 := by
  intro i b hb
  obtain ⟨b2, hb2, hle2⟩ := h1 i b hb
  obtain ⟨b3, hb3, hle3⟩ := h2 i b2 hb2
  exact ⟨b3, hb3, BlockLe_trans hle2 hle3⟩

theorem DocLe_append (d l : List Block) : DocLe d (d ++ l) :=
  fun i b hb => ⟨b, get?_append_left hb, BlockLe_refl b⟩

theorem DocLe_modify {f : Block → Block} (h : ∀ b, BlockLe b (f b))
    (i : Nat) (d : List Block) : DocLe d (modifyIdx f i d) := by
  intro j b hb
  by_cases hj : j = i
  · subst hj
    refine ⟨f b, ?_, h b⟩
    rw [modifyIdx_get_self, hb]
    rfl
  · exact ⟨b, by rw [modifyIdx_get_ne f i j d hj]; exact hb, BlockLe_refl b⟩

theorem TableLe_addRowT (t : Table) : TableLe t (addRowT t) := by
  refine ⟨le_refl _, ?_, ?_⟩
  · simp [addRowT]
  · intro r row hr
    exact ⟨row, get?_append_left hr, le_refl _⟩

theorem get?_map (f : α → β) (l : List α) (i : Nat) :
    (l.map f).get? i = (l.get? i).map f := by
  induction l generalizing i with
  | nil => cases i <;> rfl
  | cons a l ih =>
    cases i with
    | zero => rfl
    | succ n => exact ih n

theorem TableLe_addColumnsT (n : Nat) (t : Table) :
    TableLe t (addColumnsT n t) := by
  refine ⟨by simp [addColumnsT], by simp [addColumnsT], ?_⟩
  intro r row hr
  refine ⟨row ++ List.replicate n newCell, ?_, by simp⟩
  show ((addColumnsT n t).rows).get? r = _
  unfold addColumnsT
  dsimp only
  rw [get?_map, hr]
  rfl

theorem TableLe_updRow (f : List Cell → List Cell)
    (hf : ∀ row, (f row).length = row.length) (r : Nat) (t : Table) :
    TableLe t { t with rows := modifyIdx f r t.rows } := by
  refine ⟨le_refl _, by simp [modifyIdx_length], ?_⟩
  intro j row hj
  by_cases hjr : j = r
  · subst hjr
    refine ⟨f row, ?_, by rw [hf row]⟩
    show (modifyIdx f j t.rows).get? j = some (f row)
    rw [modifyIdx_get_self, hj]
    rfl
  · exact ⟨row, by
      show (modifyIdx f r t.rows).get? j = some row
      rw [modifyIdx_get_ne f r j t.rows hjr]
      exact hj, le_refl _⟩

theorem BlockLe_mapBlockPara (f : Paragraph → Paragraph) (b : Block) :
    BlockLe b (mapBlockPara f b) := by
  cases b with
  | para p => trivial
  | heading t n => trivial
  | table t => exact TableLe_refl t

theorem BlockLe_mapBlockTable {f : Table → Table}
    (hf : ∀ t, TableLe t (f t)) (b : Block) :
    BlockLe b (mapBlockTable f b) := by
  cases b with
  | para p => trivial
  | heading t n => trivial
  | table t => exact hf t

theorem DocLe_updCellAt (d : List Block) (t r c : Nat) (f : Cell → Cell) :
    DocLe d (updCellAt d t r c f) := by
  unfold updCellAt
  apply DocLe_modify
  intro b
  apply BlockLe_mapBlockTable
  intro tb
  apply TableLe_updRow
  intro row
  exact modifyIdx_length f c row

theorem DocLe_updParaAt (d : List Block) (ref : ParaRef)
    (f : Paragraph → Paragraph) : DocLe d (updParaAt d ref f) := by
  cases ref with
  | body i => exact DocLe_modify (BlockLe_mapBlockPara f) i d
  | cell t r c => exact DocLe_updCellAt d t r c _

theorem flush_doc_DocLe (s : ParserState) : DocLe s.doc (flush_text s).doc := by
  unfold flush_text
  split
  · exact DocLe_refl s.doc
  · cases hcp : s.current_paragraph with
    | some ref =>
      dsimp only
      split
      · exact DocLe_trans (DocLe_updParaAt s.doc ref _) (DocLe_updParaAt _ ref _)
      · exact DocLe_updParaAt s.doc ref _
    | none =>
      dsimp only
      split
      · exact DocLe_trans (DocLe_append s.doc [Block.para emptyParagraph])
          (DocLe_trans (DocLe_updParaAt _ (ParaRef.body s.doc.length) _)
            (DocLe_updParaAt _ (ParaRef.body s.doc.length) _))
      · exact DocLe_trans (DocLe_append s.doc [Block.para emptyParagraph])
          (DocLe_updParaAt _ (ParaRef.body s.doc.length) _)

theorem flushh_doc_DocLe (s : ParserState) :
    DocLe s.doc (flush_text_as_heading s).doc := by
  unfold flush_text_as_heading
  split
  · exact DocLe_refl s.doc
  · exact DocLe_append s.doc _

theorem hrs_doc_DocLe (s : ParserState) : DocLe s.doc (handleRowStart s).doc := by
  unfold handleRowStart
  (try dsimp only)
  repeat' split
  all_goals try exact DocLe_refl s.doc
  exact DocLe_modify (BlockLe_mapBlockTable TableLe_addRowT) _ s.doc

theorem hcs_doc_DocLe (s : ParserState) : DocLe s.doc (handleCellStart s).doc := by
  unfold handleCellStart
  dsimp only
  repeat' split
  all_goals (try dsimp only)
  all_goals try exact DocLe_refl s.doc
  all_goals try (refine DocLe_trans ?_ (DocLe_updCellAt _ _ _ _ _); exact DocLe_modify (BlockLe_mapBlockTable (TableLe_addColumnsT _)) _ s.doc)
  all_goals exact DocLe_modify (BlockLe_mapBlockTable (TableLe_addColumnsT _)) _ s.doc

theorem hce_doc_DocLe (s : ParserState) : DocLe s.doc (handleCellEnd s).doc := by
  unfold handleCellEnd
  exact flush_doc_DocLe s

theorem step_doc_DocLe (s : ParserState) (e : HtmlEvent) :
    DocLe s.doc (step s e).doc := by
  cases e with
  | data d => exact DocLe_refl s.doc
  | startTag t a =>
    rw [step_start_eq]
    cases h : classifyTag t
    case heading n => rw [hs_heading s t a h]; exact flush_doc_DocLe s
    case par => rw [hs_par s t a h]
                exact DocLe_trans (flush_doc_DocLe s) (DocLe_append _ _)
    case code => rw [hs_code s t a h]; exact flush_doc_DocLe s
    case div =>
      rw [hs_div s t a h]
      split
      · exact DocLe_trans (flush_doc_DocLe s) (DocLe_append _ _)
      · exact DocLe_refl s.doc
    case pre =>
      rw [hs_pre s t a h]
      split
      · exact DocLe_refl s.doc
      · exact DocLe_trans (flush_doc_DocLe s) (DocLe_append _ _)
    case ulist => rw [hs_ulist s t a h]; exact flush_doc_DocLe s
    case olist => rw [hs_olist s t a h]; exact flush_doc_DocLe s
    case li => rw [hs_li s t a h]
               exact DocLe_trans (flush_doc_DocLe s) (DocLe_append _ _)
    case table => rw [hs_table s t a h]
                  exact DocLe_trans (flush_doc_DocLe s) (DocLe_append _ _)
    case thead => rw [hs_thead s t a h]; exact DocLe_refl s.doc
    case tbody => rw [hs_tbody s t a h]; exact DocLe_refl s.doc
    case tr => rw [hs_tr s t a h]; exact hrs_doc_DocLe s
    case td => rw [hs_td s t a h]; exact hcs_doc_DocLe s
    case th => rw [hs_th s t a h]; exact hcs_doc_DocLe s
    case br => rw [hs_br s t a h]; exact DocLe_refl s.doc
    case span => rw [hs_span s t a h]; exact DocLe_refl s.doc
    case other => rw [hs_other s t a h]; exact DocLe_refl s.doc
  | endTag t =>
    rw [step_end_eq]
    cases h : classifyTag t
    case heading n => rw [he_heading s t h]; exact flushh_doc_DocLe s
    case par => rw [he_par s t h]; exact flush_doc_DocLe s
    case code => rw [he_code s t h]; exact flush_doc_DocLe s
    case pre =>
      rw [he_pre s t h]
      split
      · exact flush_doc_DocLe s
      · exact flush_doc_DocLe s
    case div =>
      rw [he_div s t h]
      split
      · exact DocLe_refl s.doc
      · exact DocLe_refl s.doc
    case ulist => rw [he_ulist s t h]; exact DocLe_refl s.doc
    case olist => rw [he_olist s t h]; exact DocLe_refl s.doc
    case li => rw [he_li s t h]; exact flush_doc_DocLe s
    case table => rw [he_table s t h]; exact DocLe_refl s.doc
    case tr => rw [he_tr s t h]; exact DocLe_refl s.doc
    case td => rw [he_td s t h]; exact hce_doc_DocLe s
    case th => rw [he_th s t h]; exact hce_doc_DocLe s
    case thead => rw [he_thead s t h]; exact DocLe_refl s.doc
    case tbody => rw [he_tbody s t h]; exact DocLe_refl s.doc
    case br => rw [he_br s t h]; exact DocLe_refl s.doc
    case span => rw [he_span s t h]; exact DocLe_refl s.doc
    case other => rw [he_other s t h]; exact DocLe_refl s.doc

theorem processEvents_DocLe (es : List HtmlEvent) (s : ParserState) :
    DocLe s.doc (processEvents s es).doc := by
  induction es generalizing s with
  | nil => exact DocLe_refl s.doc
  | cons e es ih =>
    rw [processEvents_cons]
    exact DocLe_trans (step_doc_DocLe s e) (ih (step s e))

/-- Claim C8 (confirmed): for every stream and continuation, a table block's
column count never decreases across events (it only grows, driven by the
largest cell index seen in any row), and a row start event processed while a
table is current resets the running cell index to 0. -/
theorem claim8_columns_monotone :
    (∀ (es fs : List HtmlEvent) (i : Nat) (t : Table),
        blockAt (processEvents initState es).doc i = some (Block.table t) →
        ∃ t2 : Table,
          blockAt (processEvents initState (es ++ fs)).doc i =
            some (Block.table t2) ∧ t.cols ≤ t2.cols) ∧
    (∀ (s : ParserState) (a : List (String × String)) (ti : Nat) (t : Table),
        s.current_table = some ti →
        blockAt s.doc ti = some (Block.table t) →
        (step s (HtmlEvent.startTag "tr" a)).current_cell_index = some 0) := by
  constructor
  · intro es fs i t hb
    have hsplit : processEvents initState (es ++ fs) =
        processEvents (processEvents initState es) fs := by
      unfold processEvents
      exact List.foldl_append step initState es fs
    have hle := processEvents_DocLe fs (processEvents initState es)
    obtain ⟨b2, hb2, hble⟩ := hle i (Block.table t) hb
    rw [hsplit]
    cases b2 with
    | para p => exact absurd hble (by simp [BlockLe])
    | heading t2 n2 => exact absurd hble (by simp [BlockLe])
    | table t2 => exact ⟨t2, hb2, hble.1⟩
  · intro s a ti t hct hbt
    rw [step_start_eq, hs_tr s "tr" a rfl]
    unfold handleRowStart
    rw [hct]
    dsimp only
    rw [hbt]

/-- Witness for the hypotheses of claim C8: after `<table>`, the table block
at index 0 keeps a column count of at least 0 across the rest of the
`exTableShape` events, and a row start event resets the cell index to 0. -/
theorem claim8_witness :
    (blockAt (processEvents initState [HtmlEvent.startTag "table" []]).doc 0 =
        some (Block.table {}) ∧
      (∃ t2 : Table,
        blockAt (processEvents initState
          ([HtmlEvent.startTag "table" []] ++
            [HtmlEvent.startTag "tr" [], HtmlEvent.startTag "td" [],
             HtmlEvent.data "a", HtmlEvent.endTag "td", HtmlEvent.endTag "tr",
             HtmlEvent.endTag "table"])).doc 0 = some (Block.table t2) ∧
        (({} : Table)).cols ≤ t2.cols)) ∧
    ((processEvents initState [HtmlEvent.startTag "table" []]).current_table =
        some 0 ∧
      (step (processEvents initState [HtmlEvent.startTag "table" []])
          (HtmlEvent.startTag "tr" [])).current_cell_index = some 0) := by
  refine ⟨⟨by decide, ?_⟩, ⟨by decide, ?_⟩⟩
  · exact claim8_columns_monotone.1 _ _ 0 {} (by decide)
  · exact claim8_columns_monotone.2 _ [] 0 {} (by decide) (by decide)

/-! ## Flush commits the untrimmed buffer as one run -/

theorem flushRun_text (s : ParserState) : (flushRun s).text = s.text_buffer := by
  unfold flushRun
  split
  · split <;> rfl
  · rfl

theorem modifyIdx_flatMap_perm {l : List α} {i : Nat} {a : α} (f : α → α)
    (g : α → List β) (x : β) (ha : l.get? i = some a)
    (hp : List.Perm (g (f a)) (x :: g a)) :
    List.Perm ((modifyIdx f i l).flatMap g) (x :: l.flatMap g) := by
  induction l generalizing i with
  | nil => simp at ha
  | cons b rest ih =>
    cases i with
    | zero =>
      have hb : b = a := by
        have : some b = some a := ha
        injection this
      subst hb
      show List.Perm (g (f b) ++ rest.flatMap g) (x :: (b :: rest).flatMap g)
      exact hp.append_right (rest.flatMap g)
    | succ n =>
      show List.Perm (g b ++ (modifyIdx f n rest).flatMap g)
        (x :: (g b ++ rest.flatMap g))
      exact List.Perm.trans ((ih ha).append_left (g b)) List.perm_middle

theorem modifyIdx_flatMap_eq {l : List α} {i : Nat} (f : α → α)
    (g : α → List β) (hg : ∀ a, g (f a) = g a) :
    (modifyIdx f i l).flatMap g = l.flatMap g := by
  induction l generalizing i with
  | nil => cases i <;> rfl
  | cons b rest ih =>
    cases i with
    | zero =>
      show g (f b) ++ rest.flatMap g = g b ++ rest.flatMap g
      rw [hg b]
    | succ n =>
      show g b ++ (modifyIdx f n rest).flatMap g = g b ++ rest.flatMap g
      rw [ih]

theorem paraAppendRun_strings (p : Paragraph) (run : Run) :
    List.Perm (Paragraph.strings { p with runs := p.runs ++ [run] })
      (run.text :: p.strings) := by
  show List.Perm ((p.runs ++ [run]).map Run.text) (run.text :: p.runs.map Run.text)
  rw [List.map_append]
  exact List.perm_append_singleton run.text (p.runs.map Run.text)

theorem cellAt_inv {d : List Block} {t r c : Nat} {cell : Cell}
    (h : cellAt d t r c = some cell) :
    ∃ tb row, blockAt d t = some (Block.table tb) ∧
      tb.rows.get? r = some row ∧ row.get? c = some cell := by
  unfold cellAt rowAt at h
  cases hb : blockAt d t with
  | none => rw [hb] at h; simp at h
  | some blk =>
    cases blk with
    | para p => rw [hb] at h; simp at h
    | heading tx n => rw [hb] at h; simp at h
    | table tb =>
      rw [hb] at h
      dsimp only at h
      cases hr : tb.rows.get? r with
      | none => rw [hr] at h; simp at h
      | some row =>
        rw [hr] at h
        simp at h
        exact ⟨tb, row, rfl, hr, by rw [List.get?_eq_getElem?]; exact h⟩

theorem appendRun_strings_perm {d : List Block} {ref : ParaRef} (run : Run)
    (h : refOk d (some ref)) :
    List.Perm (docStrings (appendRunAt d ref run)) (run.text :: docStrings d) := by
  cases ref with
  | body i =>
    obtain ⟨p, hp⟩ := h
    show List.Perm ((modifyIdx (mapBlockPara _) i d).flatMap Block.strings)
      (run.text :: d.flatMap Block.strings)
    exact modifyIdx_flatMap_perm _ Block.strings run.text hp
      (paraAppendRun_strings p run)
  | cell t r c =>
    obtain ⟨cell, hcell, hne⟩ := h
    obtain ⟨tb, row, hb, hr, hc⟩ := cellAt_inv hcell
    show List.Perm ((modifyIdx (mapBlockTable _) t d).flatMap Block.strings)
      (run.text :: d.flatMap Block.strings)
    refine modifyIdx_flatMap_perm _ Block.strings run.text hb ?_
    show List.Perm ((modifyIdx _ r tb.rows).flatMap (fun row2 => row2.flatMap Cell.strings))
      (run.text :: tb.rows.flatMap (fun row2 => row2.flatMap Cell.strings))
    refine modifyIdx_flatMap_perm _ _ run.text hr ?_
    show List.Perm ((modifyIdx _ c row).flatMap Cell.strings)
      (run.text :: row.flatMap Cell.strings)
    refine modifyIdx_flatMap_perm _ Cell.strings run.text hc ?_
    show List.Perm ((modifyIdx _ 0 cell.paragraphs).flatMap Paragraph.strings)
      (run.text :: cell.paragraphs.flatMap Paragraph.strings)
    cases hps : cell.paragraphs with
    | nil => exact absurd hps hne
    | cons p0 ps =>
      refine modifyIdx_flatMap_perm _ Paragraph.strings run.text rfl ?_
      exact paraAppendRun_strings p0 run

theorem updParaAt_strings_eq {d : List Block} {ref : ParaRef}
    {f : Paragraph → Paragraph}
    (hf : ∀ p, Paragraph.strings (f p) = p.strings) :
    docStrings (updParaAt d ref f) = docStrings d := by
  cases ref with
  | body i =>
    show (modifyIdx (mapBlockPara f) i d).flatMap Block.strings =
      d.flatMap Block.strings
    apply modifyIdx_flatMap_eq
    intro b
    cases b with
    | para p => exact hf p
    | heading tx n => rfl
    | table tb => rfl
  | cell t r c =>
    show (modifyIdx (mapBlockTable _) t d).flatMap Block.strings =
      d.flatMap Block.strings
    apply modifyIdx_flatMap_eq
    intro b
    cases b with
    | para p => rfl
    | heading tx n => rfl
    | table tb =>
      show (modifyIdx _ r tb.rows).flatMap (fun row => row.flatMap Cell.strings) =
        tb.rows.flatMap (fun row => row.flatMap Cell.strings)
      apply modifyIdx_flatMap_eq
      intro row
      apply modifyIdx_flatMap_eq
      intro cell
      show (modifyIdx f 0 cell.paragraphs).flatMap Paragraph.strings =
        cell.paragraphs.flatMap Paragraph.strings
      apply modifyIdx_flatMap_eq
      exact hf

theorem docStrings_append (d l : List Block) :
    docStrings (d ++ l) = docStrings d ++ docStrings l :=
  List.flatMap_append d l _

theorem refOk_fresh (d : List Block) :
    refOk (d ++ [Block.para emptyParagraph]) (some (ParaRef.body d.length)) :=
  ⟨emptyParagraph, List.get?_concat_length d _⟩

theorem flush_strings_perm (s : ParserState)
    (hne : pyStrip s.text_buffer ≠ "")
    (href : refOk s.doc s.current_paragraph) :
    List.Perm (docStrings (flush_text s).doc)
      (s.text_buffer :: docStrings s.doc) := by
  unfold flush_text
  rw [if_neg hne]
  cases hcp : s.current_paragraph with
  | some ref =>
    rw [hcp] at href
    dsimp only
    split
    · have hppr : docStrings (applyCodeBlockPPr (appendRunAt s.doc ref (flushRun s)) ref) =
          docStrings (appendRunAt s.doc ref (flushRun s)) :=
        updParaAt_strings_eq (fun p => rfl)
      rw [hppr, ← flushRun_text s]
      exact appendRun_strings_perm (flushRun s) href
    · rw [← flushRun_text s]
      exact appendRun_strings_perm (flushRun s) href
  | none =>
    dsimp only
    have hfresh := refOk_fresh s.doc
    have hperm := appendRun_strings_perm (d := s.doc ++ [Block.para emptyParagraph])
      (flushRun s) hfresh
    rw [docStrings_append] at hperm
    have hnil : docStrings [Block.para emptyParagraph] = [] := rfl
    rw [hnil, List.append_nil, flushRun_text] at hperm
    split
    · have hppr : docStrings (applyCodeBlockPPr
          (appendRunAt (s.doc ++ [Block.para emptyParagraph])
            (ParaRef.body s.doc.length) (flushRun s)) (ParaRef.body s.doc.length)) =
          docStrings (appendRunAt (s.doc ++ [Block.para emptyParagraph])
            (ParaRef.body s.doc.length) (flushRun s)) :=
        updParaAt_strings_eq (fun p => rfl)
      rw [hppr]
      exact hperm
    · exact hperm

/-- Claim C6 (confirmed): flushing with an empty or whitespace-only buffer
only clears the buffer — the document is untouched, so no paragraph and no
run is created (`<p></p>` therefore yields a single paragraph with no runs) —
and flushing a buffer that holds non-whitespace text adds exactly one run
carrying the untrimmed buffer text. -/
theorem claim6_flush_semantics :
    (∀ s : ParserState, pyStrip s.text_buffer = "" →
        flush_text s = { s with text_buffer := "" }) ∧
    (html_to_docx exEmptyParagraphTags).doc = [Block.para emptyParagraph] ∧
    (∀ s : ParserState, pyStrip s.text_buffer ≠ "" →
        refOk s.doc s.current_paragraph →
        List.Perm (docStrings (flush_text s).doc)
          (s.text_buffer :: docStrings s.doc)) :=
  ⟨flush_text_of_strip_empty, by decide, flush_strings_perm⟩

/-- Witness for the hypotheses of claim C6, at two concrete states: a
whitespace-only buffer is dropped without touching the document, and the
buffer `" hi "` is committed untrimmed as a run. -/
theorem claim6_witness :
    (pyStrip " " = "" ∧
      flush_text { initState with text_buffer := " " } =
        { initState with text_buffer := "" }) ∧
    (pyStrip " hi " ≠ "" ∧
      List.Perm
        (docStrings (flush_text { initState with text_buffer := " hi " }).doc)
        (" hi " :: docStrings
          ({ initState with text_buffer := " hi " } : ParserState).doc)) :=
  ⟨⟨by decide, claim6_flush_semantics.1 { initState with text_buffer := " " }
      (by decide)⟩,
   ⟨by decide, claim6_flush_semantics.2.2 { initState with text_buffer := " hi " }
      (by decide) trivial⟩⟩

/-! ## Address preservation lemmas (towards claim C1) -/

theorem get?_of_lt {l : List α} {i : Nat} (h : i < l.length) :
    ∃ a, l.get? i = some a := by
  induction l generalizing i with
  | nil => simp at h
  | cons b rest ih =>
    cases i with
    | zero => exact ⟨b, rfl⟩
    | succ n => exact ih (Nat.lt_of_succ_lt_succ h)

theorem cellAt_of {d : List Block} {t r c : Nat} (tb : Table)
    (row : List Cell) {cell : Cell} (hb : blockAt d t = some (Block.table tb))
    (hr : tb.rows.get? r = some row) (hc : row.get? c = some cell) :
    cellAt d t r c = some cell := by
  unfold cellAt rowAt
  rw [hb]
  dsimp only
  rw [hr]
  exact hc

theorem rowAt_inv {d : List Block} {t r : Nat} {row : List Cell}
    (h : rowAt d t r = some row) :
    ∃ tb, blockAt d t = some (Block.table tb) ∧ tb.rows.get? r = some row := by
  unfold rowAt at h
  cases hb : blockAt d t with
  | none => rw [hb] at h; simp at h
  | some blk =>
    cases blk with
    | para p => rw [hb] at h; simp at h
    | heading tx n => rw [hb] at h; simp at h
    | table tb =>
      rw [hb] at h
      exact ⟨tb, rfl, h⟩

theorem blockAt_append {d l : List Block} {i : Nat} {b : Block}
    (h : blockAt d i = some b) : blockAt (d ++ l) i = some b :=
  get?_append_left h

theorem cellAt_append {d l : List Block} {t r c : Nat} {cell : Cell}
    (h : cellAt d t r c = some cell) : cellAt (d ++ l) t r c = some cell := by
  obtain ⟨tb, row, hb, hr, hc⟩ := cellAt_inv h
  exact cellAt_of tb row (blockAt_append hb) hr hc

theorem refOk_append {d l : List Block} {cp : Option ParaRef}
    (h : refOk d cp) : refOk (d ++ l) cp := by
  cases cp with
  | none => trivial
  | some ref =>
    cases ref with
    | body i =>
      obtain ⟨p, hp⟩ := h
      exact ⟨p, blockAt_append hp⟩
    | cell t r c =>
      obtain ⟨cell, hcell, hne⟩ := h
      exact ⟨cell, cellAt_append hcell, hne⟩

theorem blockAt_modifyT_para {d : List Block} {i j : Nat} {p : Paragraph}
    {f : Table → Table} (h : blockAt d i = some (Block.para p)) :
    blockAt (modifyIdx (mapBlockTable f) j d) i = some (Block.para p) := by
  by_cases hij : i = j
  · subst hij
    show (modifyIdx (mapBlockTable f) i d).get? i = _
    rw [modifyIdx_get_self]
    rw [show d.get? i = some (Block.para p) from h]
    rfl
  · show (modifyIdx (mapBlockTable f) j d).get? i = _
    rw [modifyIdx_get_ne _ j i d hij]
    exact h

theorem cellAt_modifyT {d : List Block} {ti t r c : Nat} {cell : Cell}
    {f : Table → Table}
    (hf : ∀ tb row2, tb.rows.get? r = some row2 → row2.get? c = some cell →
      ∃ row3, (f tb).rows.get? r = some row3 ∧ row3.get? c = some cell)
    (h : cellAt d t r c = some cell) :
    cellAt (modifyIdx (mapBlockTable f) ti d) t r c = some cell := by
  obtain ⟨tb, row, hb, hr, hc⟩ := cellAt_inv h
  by_cases hti : t = ti
  · subst hti
    obtain ⟨row3, hr3, hc3⟩ := hf tb row hr hc
    refine cellAt_of (f tb) row3 ?_ hr3 hc3
    show (modifyIdx (mapBlockTable f) t d).get? t = _
    rw [modifyIdx_get_self]
    rw [show d.get? t = some (Block.table tb) from hb]
    rfl
  · refine cellAt_of tb row ?_ hr hc
    show (modifyIdx (mapBlockTable f) ti d).get? t = _
    rw [modifyIdx_get_ne _ ti t d hti]
    exact hb

theorem addRowT_keeps {tb : Table} {r c : Nat} {row2 : List Cell} {cell : Cell}
    (hr : tb.rows.get? r = some row2) (hc : row2.get? c = some cell) :
    ∃ row3, (addRowT tb).rows.get? r = some row3 ∧ row3.get? c = some cell :=
  ⟨row2, get?_append_left hr, hc⟩

theorem addColumnsT_keeps {n : Nat} {tb : Table} {r c : Nat}
    {row2 : List Cell} {cell : Cell}
    (hr : tb.rows.get? r = some row2) (hc : row2.get? c = some cell) :
    ∃ row3, (addColumnsT n tb).rows.get? r = some row3 ∧
      row3.get? c = some cell := by
  refine ⟨row2 ++ List.replicate n newCell, ?_, get?_append_left hc⟩
  show (tb.rows.map _).get? r = _
  rw [get?_map, hr]
  rfl

theorem refOk_modifyT {d : List Block} {ti : Nat} {cp : Option ParaRef}
    {f : Table → Table}
    (hf : ∀ tb r c (row2 : List Cell) (cell : Cell),
      tb.rows.get? r = some row2 → row2.get? c = some cell →
      ∃ row3, (f tb).rows.get? r = some row3 ∧ row3.get? c = some cell)
    (h : refOk d cp) : refOk (modifyIdx (mapBlockTable f) ti d) cp := by
  cases cp with
  | none => trivial
  | some ref =>
    cases ref with
    | body i =>
      obtain ⟨p, hp⟩ := h
      exact ⟨p, blockAt_modifyT_para hp⟩
    | cell t r c =>
      obtain ⟨cell, hcell, hne⟩ := h
      exact ⟨cell, cellAt_modifyT (fun tb row2 => hf tb r c row2 cell) hcell, hne⟩

theorem cellAt_updCellAt_self {d : List Block} {t r c : Nat} {cell : Cell}
    (f : Cell → Cell) (h : cellAt d t r c = some cell) :
    cellAt (updCellAt d t r c f) t r c = some (f cell) := by
  obtain ⟨tb, row, hb, hr, hc⟩ := cellAt_inv h
  refine cellAt_of { tb with rows := modifyIdx (modifyIdx f c) r tb.rows }
    (modifyIdx f c row) ?_ ?_ ?_
  · show (modifyIdx (mapBlockTable _) t d).get? t = _
    rw [modifyIdx_get_self]
    rw [show d.get? t = some (Block.table tb) from hb]
    rfl
  · show (modifyIdx (modifyIdx f c) r tb.rows).get? r = _
    rw [modifyIdx_get_self, hr]
    rfl
  · show (modifyIdx f c row).get? c = _
    rw [modifyIdx_get_self, hc]
    rfl

theorem refOk_updParaAt_self {d : List Block} {ref : ParaRef}
    {f : Paragraph → Paragraph} (h : refOk d (some ref)) :
    refOk (updParaAt d ref f) (some ref) := by
  cases ref with
  | body i =>
    obtain ⟨p, hp⟩ := h
    refine ⟨f p, ?_⟩
    show (modifyIdx (mapBlockPara f) i d).get? i = _
    rw [modifyIdx_get_self]
    rw [show d.get? i = some (Block.para p) from hp]
    rfl
  | cell t r c =>
    obtain ⟨cell, hcell, hne⟩ := h
    refine ⟨{ cell with paragraphs := modifyIdx f 0 cell.paragraphs }, ?_, ?_⟩
    · exact cellAt_updCellAt_self _ hcell
    · show modifyIdx f 0 cell.paragraphs ≠ []
      cases hps : cell.paragraphs with
      | nil => exact absurd hps hne
      | cons p0 ps => simp [modifyIdx]

theorem refOk_updCellAt {d : List Block} {ti r2 c2 : Nat} {cp : Option ParaRef}
    {f : Cell → Cell} (hf : ∀ cl, (f cl).paragraphs ≠ [])
    (h : refOk d cp) : refOk (updCellAt d ti r2 c2 f) cp := by
  cases cp with
  | none => trivial
  | some ref =>
    cases ref with
    | body i =>
      obtain ⟨p, hp⟩ := h
      exact ⟨p, blockAt_modifyT_para hp⟩
    | cell t r c =>
      obtain ⟨cell, hcell, hne⟩ := h
      by_cases hti : t = ti
      · subst hti
        by_cases hrr : r = r2
        · subst hrr
          by_cases hcc : c = c2
          · subst hcc
            exact ⟨f cell, cellAt_updCellAt_self f hcell, hf cell⟩
          · obtain ⟨tb, row, hb, hr, hc⟩ := cellAt_inv hcell
            refine ⟨cell, ?_, hne⟩
            refine cellAt_of
              { tb with rows := modifyIdx (modifyIdx f c2) r tb.rows }
              (modifyIdx f c2 row) ?_ ?_ ?_
            · show (modifyIdx (mapBlockTable _) t d).get? t = _
              rw [modifyIdx_get_self]
              rw [show d.get? t = some (Block.table tb) from hb]
              rfl
            · show (modifyIdx (modifyIdx f c2) r tb.rows).get? r = _
              rw [modifyIdx_get_self, hr]
              rfl
            · show (modifyIdx f c2 row).get? c = _
              rw [modifyIdx_get_ne _ c2 c row hcc]
              exact hc
        · obtain ⟨tb, row, hb, hr, hc⟩ := cellAt_inv hcell
          refine ⟨cell, ?_, hne⟩
          refine cellAt_of
            { tb with rows := modifyIdx (modifyIdx f c2) r2 tb.rows }
            row ?_ ?_ hc
          · show (modifyIdx (mapBlockTable _) t d).get? t = _
            rw [modifyIdx_get_self]
            rw [show d.get? t = some (Block.table tb) from hb]
            rfl
          · show (modifyIdx (modifyIdx f c2) r2 tb.rows).get? r = _
            rw [modifyIdx_get_ne _ r2 r tb.rows hrr]
            exact hr
      · obtain ⟨tb, row, hb, hr, hc⟩ := cellAt_inv hcell
        refine ⟨cell, ?_, hne⟩
        refine cellAt_of tb row ?_ hr hc
        show (modifyIdx (mapBlockTable _) ti d).get? t = _
        rw [modifyIdx_get_ne _ ti t d hti]
        exact hb

/-! ## Character preservation lemmas (towards claim C1) -/

theorem replicate_newCell_strings (n : Nat) :
    (List.replicate n newCell).flatMap Cell.strings = [] := by
  induction n with
  | zero => rfl
  | succ m ih =>
    show Cell.strings newCell ++ (List.replicate m newCell).flatMap Cell.strings = []
    rw [ih]
    rfl

theorem flatMap_congr2 {l : List α} {f g : α → List β} (h : ∀ a, f a = g a) :
    l.flatMap f = l.flatMap g := by
  rw [show f = g from funext h]

theorem addRowT_strings (tb : Table) :
    Block.strings (Block.table (addRowT tb)) = Block.strings (Block.table tb) := by
  show (tb.rows ++ [List.replicate tb.cols newCell]).flatMap
      (fun row => row.flatMap Cell.strings) =
    tb.rows.flatMap (fun row => row.flatMap Cell.strings)
  rw [List.flatMap_append]
  have h1 : ([List.replicate tb.cols newCell] : List (List Cell)).flatMap
      (fun row => row.flatMap Cell.strings) = [] := by
    show (List.replicate tb.cols newCell).flatMap Cell.strings ++ [] = []
    rw [List.append_nil, replicate_newCell_strings]
  rw [h1, List.append_nil]

theorem addColumnsT_strings (n : Nat) (tb : Table) :
    Block.strings (Block.table (addColumnsT n tb)) =
      Block.strings (Block.table tb) := by
  show (tb.rows.map (fun row => row ++ List.replicate n newCell)).flatMap
      (fun row => row.flatMap Cell.strings) =
    tb.rows.flatMap (fun row => row.flatMap Cell.strings)
  rw [List.flatMap_map]
  apply flatMap_congr2
  intro row
  show (row ++ List.replicate n newCell).flatMap Cell.strings = _
  rw [List.flatMap_append, replicate_newCell_strings, List.append_nil]

theorem docStrings_addRow (ti : Nat) (d : List Block) :
    docStrings (modifyIdx (mapBlockTable addRowT) ti d) = docStrings d := by
  apply modifyIdx_flatMap_eq
  intro b
  cases b with
  | para p => rfl
  | heading tx n => rfl
  | table tb => exact addRowT_strings tb

theorem docStrings_addCols (n ti : Nat) (d : List Block) :
    docStrings (modifyIdx (mapBlockTable (addColumnsT n)) ti d) = docStrings d := by
  apply modifyIdx_flatMap_eq
  intro b
  cases b with
  | para p => rfl
  | heading tx m => rfl
  | table tb => exact addColumnsT_strings n tb

theorem flatMap_mem_of_get {l : List α} {g : α → List β} {i : Nat} {a : α}
    {x : β} (h : l.get? i = some a) (hx : x ∈ g a) : x ∈ l.flatMap g :=
  List.mem_flatMap.mpr ⟨a, List.get?_mem h, hx⟩

theorem modifyIdx_flatMap_mem {l : List α} {g : α → List β} {f : α → α}
    {i : Nat} {x : β} (h : x ∈ l.flatMap g) :
    x ∈ (modifyIdx f i l).flatMap g ∨ ∃ a, l.get? i = some a ∧ x ∈ g a := by
  obtain ⟨a, hal, hxa⟩ := List.mem_flatMap.mp h
  obtain ⟨j, hj⟩ := List.get_of_mem hal
  have hja : l.get? j = some a := by
    rw [List.get?_eq_get j.isLt]
    rw [hj]
  by_cases hji : j.val = i
  · exact Or.inr ⟨a, by rw [← hji]; exact hja, hxa⟩
  · refine Or.inl (flatMap_mem_of_get (i := j.val) (a := a) ?_ hxa)
    rw [modifyIdx_get_ne f i j.val l hji]
    exact hja

theorem updCellAt_strings_mem {d : List Block} {t r c : Nat}
    {f : Cell → Cell} {str : String} (h : str ∈ docStrings d) :
    str ∈ docStrings (updCellAt d t r c f) ∨
      ∃ cell, cellAt d t r c = some cell ∧ str ∈ Cell.strings cell := by
  rcases modifyIdx_flatMap_mem (f := mapBlockTable
      (fun tb => { tb with rows := modifyIdx (modifyIdx f c) r tb.rows }))
      (i := t) h with hin | ⟨b, hb, hstr⟩
  · exact Or.inl hin
  · cases b with
    | para p =>
      refine Or.inl (flatMap_mem_of_get (i := t) (a := Block.para p) ?_ hstr)
      show (modifyIdx (mapBlockTable _) t d).get? t = _
      rw [modifyIdx_get_self, hb]
      rfl
    | heading tx n =>
      refine Or.inl (flatMap_mem_of_get (i := t) (a := Block.heading tx n) ?_ hstr)
      show (modifyIdx (mapBlockTable _) t d).get? t = _
      rw [modifyIdx_get_self, hb]
      rfl
    | table tb =>
      have hmod : (modifyIdx (mapBlockTable
          (fun tb2 => { tb2 with rows := modifyIdx (modifyIdx f c) r tb2.rows }))
          t d).get? t = some (Block.table
            { tb with rows := modifyIdx (modifyIdx f c) r tb.rows }) := by
        rw [modifyIdx_get_self, hb]
        rfl
      rcases modifyIdx_flatMap_mem (f := modifyIdx f c) (i := r)
          (hstr : str ∈ tb.rows.flatMap _) with hin2 | ⟨row, hrow, hstr2⟩
      · refine Or.inl (flatMap_mem_of_get hmod ?_)
        exact hin2
      · rcases modifyIdx_flatMap_mem (f := f) (i := c)
            (hstr2 : str ∈ row.flatMap Cell.strings) with hin3 | ⟨cell, hcell, hstr3⟩
        · refine Or.inl (flatMap_mem_of_get hmod ?_)
          show str ∈ (modifyIdx (modifyIdx f c) r tb.rows).flatMap _
          refine flatMap_mem_of_get (i := r) (a := modifyIdx f c row) ?_ hin3
          rw [modifyIdx_get_self, hrow]
          rfl
        · exact Or.inr ⟨cell, cellAt_of tb row hb hrow hcell, hstr3⟩

theorem cell_chars_mem {cell : Cell} {c : Char} :
    c ∈ Cell.chars cell ↔ ∃ str ∈ Cell.strings cell, c ∈ str.data := by
  unfold Cell.chars Cell.strings Paragraph.strings
  constructor
  · intro h
    obtain ⟨p, hp, h2⟩ := List.mem_flatMap.mp h
    obtain ⟨run, hrun, h3⟩ := List.mem_flatMap.mp h2
    refine ⟨run.text, ?_, h3⟩
    exact List.mem_flatMap.mpr ⟨p, hp, List.mem_map.mpr ⟨run, hrun, rfl⟩⟩
  · intro ⟨str, hstr, h3⟩
    obtain ⟨p, hp, h2⟩ := List.mem_flatMap.mp hstr
    obtain ⟨run, hrun, heq⟩ := List.mem_map.mp h2
    refine List.mem_flatMap.mpr ⟨p, hp, ?_⟩
    refine List.mem_flatMap.mpr ⟨run, hrun, ?_⟩
    rw [heq]
    exact h3

theorem mem_dropWhile_of_not {p : α → Bool} {l : List α} {x : α}
    (hx : x ∈ l) (hp : p x = false) : x ∈ l.dropWhile p := by
  induction l with
  | nil => simp at hx
  | cons a rest ih =>
    by_cases ha : p a = true
    · rw [List.dropWhile_cons_of_pos ha]
      rcases List.mem_cons.mp hx with heq | hmem
      · subst heq
        rw [ha] at hp
        simp at hp
      · exact ih hmem
    · rw [List.dropWhile_cons_of_neg ha]
      exact hx

theorem mem_pyStrip {s : String} {c : Char} (hc : c ∈ s.data)
    (hw : c.isWhitespace = false) : c ∈ (pyStrip s).data := by
  unfold pyStrip
  show c ∈ (((s.data.dropWhile _).reverse.dropWhile _).reverse : List Char)
  rw [List.mem_reverse]
  apply mem_dropWhile_of_not _ hw
  rw [List.mem_reverse]
  exact mem_dropWhile_of_not hc hw

theorem pyStrip_empty_ws {s : String} (h : pyStrip s = "")
    {c : Char} (hc : c ∈ s.data) : c.isWhitespace = true := by
  by_contra hw
  have hw2 : c.isWhitespace = false := by
    cases hcw : c.isWhitespace
    · rfl
    · exact absurd hcw hw
  have := mem_pyStrip hc hw2
  rw [h] at this
  simp at this

theorem docChars_append (d l : List Block) :
    docChars (d ++ l) = docChars d ++ docChars l := by
  unfold docChars
  rw [docStrings_append, List.flatMap_append]

theorem docChars_mem_of_strings {d : List Block} {str : String} {c : Char}
    (hstr : str ∈ docStrings d) (hc : c ∈ str.data) : c ∈ docChars d :=
  List.mem_flatMap.mpr ⟨str, hstr, hc⟩

theorem docChars_mem_strings {d : List Block} {c : Char}
    (h : c ∈ docChars d) : ∃ str ∈ docStrings d, c ∈ str.data :=
  List.mem_flatMap.mp h

/-! ## Flush and handler invariants (towards claim C1) -/

theorem CharsMono_refl (s : ParserState) : CharsMono s s := fun c hw hc => hc

theorem CharsMono_trans {s1 s2 s3 : ParserState} (h1 : CharsMono s1 s2)
    (h2 : CharsMono s2 s3) : CharsMono s1 s3 :=
  fun c hw hc => h2 c hw (h1 c hw hc)

theorem CharsMono_of_doc_eq {s1 s2 : ParserState}
    (hd : docChars s2.doc = docChars s1.doc)
    (hb : ∀ c, c ∈ s1.text_buffer.data → c ∈ s2.text_buffer.data) :
    CharsMono s1 s2 := by
  intro c hw hc
  rcases List.mem_append.mp hc with h1 | h2
  · exact List.mem_append_left _ (by rw [hd]; exact h1)
  · exact List.mem_append_right _ (hb c h2)

theorem flush_lost (s : ParserState) : (flush_text s).lost = s.lost := by
  unfold flush_text; split
  all_goals rfl

theorem flushh_lost (s : ParserState) :
    (flush_text_as_heading s).lost = s.lost := by
  unfold flush_text_as_heading; split
  all_goals rfl

theorem hrs_lost (s : ParserState) : (handleRowStart s).lost = s.lost := by
  unfold handleRowStart; (try dsimp only); repeat' split
  all_goals rfl

theorem hcs_lost_mono (s : ParserState) (h : s.lost = true) :
    (handleCellStart s).lost = true := by
  unfold handleCellStart
  dsimp only
  repeat' split
  all_goals try exact h
  rw [h]
  rfl

theorem hce_lost (s : ParserState) : (handleCellEnd s).lost = s.lost := by
  unfold handleCellEnd
  exact flush_lost s

theorem flush_inv (s : ParserState) (href : refOk s.doc s.current_paragraph) :
    refOk (flush_text s).doc (flush_text s).current_paragraph ∧
      CharsMono s (flush_text s) := by
  by_cases hstrip : pyStrip s.text_buffer = ""
  · rw [flush_text_of_strip_empty s hstrip]
    constructor
    · exact href
    · intro c hw hc
      rcases List.mem_append.mp hc with h1 | h2
      · exact List.mem_append_left _ h1
      · have := pyStrip_empty_ws hstrip h2
        rw [hw] at this
        simp at this
  · constructor
    · unfold flush_text
      rw [if_neg hstrip]
      cases hcp : s.current_paragraph with
      | some ref =>
        rw [hcp] at href
        dsimp only
        split
        · exact refOk_updParaAt_self (refOk_updParaAt_self href)
        · exact refOk_updParaAt_self href
      | none =>
        dsimp only
        split
        · exact refOk_updParaAt_self (refOk_updParaAt_self (refOk_fresh s.doc))
        · exact refOk_updParaAt_self (refOk_fresh s.doc)
    · intro c hw hc
      have hperm := flush_strings_perm s hstrip href
      refine List.mem_append_left _ ?_
      rcases List.mem_append.mp hc with h1 | h2
      · obtain ⟨str, hstr, hcstr⟩ := docChars_mem_strings h1
        exact docChars_mem_of_strings
          (hperm.symm.mem_iff.mp (List.mem_cons_of_mem _ hstr)) hcstr
      · exact docChars_mem_of_strings
          (hperm.symm.mem_iff.mp (List.mem_cons_self _ _)) h2

theorem flushh_inv (s : ParserState) :
    refOk (flush_text_as_heading s).doc (flush_text_as_heading s).current_paragraph ∧
      CharsMono s (flush_text_as_heading s) := by
  unfold flush_text_as_heading
  split
  · refine ⟨trivial, ?_⟩
    intro c hw hc
    rcases List.mem_append.mp hc with h1 | h2
    · exact List.mem_append_left _ h1
    · rename_i hstrip
      have := pyStrip_empty_ws hstrip h2
      rw [hw] at this
      simp at this
  · refine ⟨trivial, ?_⟩
    intro c hw hc
    refine List.mem_append_left _ ?_
    show c ∈ docChars (s.doc ++ [Block.heading (pyStrip s.text_buffer) s.heading_level])
    rw [docChars_append]
    rcases List.mem_append.mp hc with h1 | h2
    · exact List.mem_append_left _ h1
    · refine List.mem_append_right _ ?_
      show c ∈ (docStrings [Block.heading (pyStrip s.text_buffer) s.heading_level]).flatMap String.data
      have hmem : c ∈ (pyStrip s.text_buffer).data := mem_pyStrip h2 hw
      refine List.mem_flatMap.mpr ⟨pyStrip s.text_buffer, ?_, hmem⟩
      show pyStrip s.text_buffer ∈ [pyStrip s.text_buffer] ++ []
      simp

theorem addParagraph_inv (s : ParserState) (st : String) :
    refOk (addParagraph s st).doc (addParagraph s st).current_paragraph ∧
      CharsMono s (addParagraph s st) := by
  constructor
  · exact ⟨{ style := st }, List.get?_concat_length s.doc _⟩
  · intro c hw hc
    rcases List.mem_append.mp hc with h1 | h2
    · refine List.mem_append_left _ ?_
      show c ∈ docChars (s.doc ++ [Block.para { style := st }])
      rw [docChars_append]
      exact List.mem_append_left _ h1
    · exact List.mem_append_right _ h2

theorem hrs_inv (s : ParserState) (href : refOk s.doc s.current_paragraph) :
    refOk (handleRowStart s).doc (handleRowStart s).current_paragraph ∧
      CharsMono s (handleRowStart s) := by
  unfold handleRowStart
  cases hct : s.current_table with
  | none => exact ⟨href, CharsMono_refl s⟩
  | some ti =>
    dsimp only
    cases hbt : blockAt s.doc ti with
    | none => exact ⟨href, CharsMono_refl s⟩
    | some blk =>
      cases blk with
      | para p => exact ⟨href, CharsMono_refl s⟩
      | heading tx n => exact ⟨href, CharsMono_refl s⟩
      | table tb =>
        dsimp only
        constructor
        · exact refOk_modifyT
            (fun tb2 r c row2 cell hr hc => addRowT_keeps hr hc) href
        · apply CharsMono_of_doc_eq
          · show docChars (modifyIdx (mapBlockTable addRowT) ti s.doc) =
              docChars s.doc
            unfold docChars
            rw [docStrings_addRow]
          · intro c h
            exact h

theorem hcs_inv (s : ParserState) (href : refOk s.doc s.current_paragraph) :
    refOk (handleCellStart s).doc (handleCellStart s).current_paragraph ∧
      ((handleCellStart s).lost = false → CharsMono s (handleCellStart s)) := by
  unfold handleCellStart
  cases hcr : s.current_row with
  | none => exact ⟨href, fun _ => CharsMono_refl s⟩
  | some rtr =>
    dsimp only
    cases hct : s.current_table with
    | none => exact ⟨href, fun _ => CharsMono_refl s⟩
    | some ti =>
      dsimp only
      cases hbt : blockAt s.doc ti with
      | none => exact ⟨href, fun _ => CharsMono_refl s⟩
      | some blk =>
        cases blk with
        | para p => exact ⟨href, fun _ => CharsMono_refl s⟩
        | heading tx n => exact ⟨href, fun _ => CharsMono_refl s⟩
        | table tb =>
          dsimp only
          have hdoc1 : docChars (modifyIdx (mapBlockTable
              (addColumnsT (s.current_cell_index.getD 0 + 1 - tb.cols))) ti s.doc) =
              docChars s.doc := by
            unfold docChars
            rw [docStrings_addCols]
          cases hrw : rowAt (modifyIdx (mapBlockTable
              (addColumnsT (s.current_cell_index.getD 0 + 1 - tb.cols))) ti s.doc)
              rtr.1 rtr.2 with
          | none =>
            constructor
            · exact refOk_modifyT
                (fun tb2 r c row2 cell hr hc => addColumnsT_keeps hr hc) href
            · intro _
              apply CharsMono_of_doc_eq hdoc1
              intro c h
              exact h
          | some row =>
            dsimp only
            by_cases hlen : s.current_cell_index.getD 0 < row.length
            · rw [if_pos hlen]
              obtain ⟨tb1, hb1, hr1⟩ := rowAt_inv hrw
              obtain ⟨cell0, hc0⟩ := get?_of_lt hlen
              have hcell1 : cellAt (modifyIdx (mapBlockTable
                  (addColumnsT (s.current_cell_index.getD 0 + 1 - tb.cols))) ti s.doc)
                  rtr.1 rtr.2 (s.current_cell_index.getD 0) = some cell0 :=
                cellAt_of tb1 row hb1 hr1 hc0
              constructor
              · refine ⟨clearedCell, ?_, ?_⟩
                · exact cellAt_updCellAt_self (fun _ => clearedCell) hcell1
                · show ([{ runs := [{ text := "" }] }] : List Paragraph) ≠ []
                  simp
              · intro hlost
                have hlost2 : (s.lost || ((cellAt (modifyIdx (mapBlockTable
                    (addColumnsT (s.current_cell_index.getD 0 + 1 - tb.cols))) ti
                    s.doc) rtr.1 rtr.2 (s.current_cell_index.getD 0)).elim []
                    Cell.chars).any (fun c => !c.isWhitespace)) = false := hlost
                rw [hcell1] at hlost2
                rcases Bool.or_eq_false_iff.mp hlost2 with ⟨hl1, hl2⟩
                intro c hw hc
                rcases List.mem_append.mp hc with h1 | h2
                · refine List.mem_append_left _ ?_
                  rw [← hdoc1] at h1
                  obtain ⟨str, hstr, hcstr⟩ := docChars_mem_strings h1
                  rcases updCellAt_strings_mem (f := fun _ => clearedCell)
                      (t := rtr.1) (r := rtr.2)
                      (c := s.current_cell_index.getD 0) hstr with hin | ⟨cell, hcAt, hstrc⟩
                  · exact docChars_mem_of_strings hin hcstr
                  · exfalso
                    have hceq : cell = cell0 := by
                      rw [hcAt] at hcell1
                      injection hcell1
                    subst hceq
                    have hmemchars : c ∈ Cell.chars cell :=
                      cell_chars_mem.mpr ⟨str, hstrc, hcstr⟩
                    have := List.any_eq_false.mp hl2 c hmemchars
                    rw [hw] at this
                    simp at this
                · exact List.mem_append_right _ h2
            · rw [if_neg hlen]
              constructor
              · exact refOk_modifyT
                  (fun tb2 r c row2 cell hr hc => addColumnsT_keeps hr hc) href
              · intro _
                apply CharsMono_of_doc_eq hdoc1
                intro c h
                exact h

theorem step_lost_mono (s : ParserState) (e : HtmlEvent) (h : s.lost = true) :
    (step s e).lost = true := by
  cases e with
  | data d => exact h
  | startTag t a =>
    rw [step_start_eq]
    cases ht : classifyTag t
    case heading n => rw [hs_heading s t a ht]; rw [show ({ flush_text s with in_heading := true, heading_level := n } : ParserState).lost = (flush_text s).lost from rfl, flush_lost]; exact h
    case par => rw [hs_par s t a ht]; rw [show (addParagraph (flush_text s) "Normal").lost = (flush_text s).lost from rfl, flush_lost]; exact h
    case code => rw [hs_code s t a ht]; rw [show ({ flush_text s with in_code := true } : ParserState).lost = (flush_text s).lost from rfl, flush_lost]; exact h
    case div =>
      rw [hs_div s t a ht]
      split
      · rw [show (addParagraph { flush_text s with in_code_block := true } "Normal").lost = (flush_text s).lost from rfl, flush_lost]; exact h
      · exact h
    case pre =>
      rw [hs_pre s t a ht]
      split
      · exact h
      · rw [show (addParagraph (flush_text s) "Normal").lost = (flush_text s).lost from rfl, flush_lost]; exact h
    case ulist => rw [hs_ulist s t a ht]; rw [show ({ flush_text s with list_level := (flush_text s).list_level + 1 } : ParserState).lost = (flush_text s).lost from rfl, flush_lost]; exact h
    case olist => rw [hs_olist s t a ht]; rw [show ({ flush_text s with list_level := (flush_text s).list_level + 1 } : ParserState).lost = (flush_text s).lost from rfl, flush_lost]; exact h
    case li => rw [hs_li s t a ht]; rw [show (addParagraph (flush_text s) "List Bullet").lost = (flush_text s).lost from rfl, flush_lost]; exact h
    case table => rw [hs_table s t a ht]; rw [show ({ flush_text s with doc := (flush_text s).doc ++ [Block.table {}], current_table := some (flush_text s).doc.length } : ParserState).lost = (flush_text s).lost from rfl, flush_lost]; exact h
    case thead => rw [hs_thead s t a ht]; exact h
    case tbody => rw [hs_tbody s t a ht]; exact h
    case tr => rw [hs_tr s t a ht, hrs_lost]; exact h
    case td => rw [hs_td s t a ht]; exact hcs_lost_mono s h
    case th => rw [hs_th s t a ht]; exact hcs_lost_mono s h
    case br => rw [hs_br s t a ht]; exact h
    case span => rw [hs_span s t a ht]; exact h
    case other => rw [hs_other s t a ht]; exact h
  | endTag t =>
    rw [step_end_eq]
    cases ht : classifyTag t
    case heading n => rw [he_heading s t ht]; rw [show ({ flush_text_as_heading s with in_heading := false } : ParserState).lost = (flush_text_as_heading s).lost from rfl, flushh_lost]; exact h
    case par => rw [he_par s t ht, flush_lost]; exact h
    case code => rw [he_code s t ht]; rw [show ({ flush_text s with in_code := false } : ParserState).lost = (flush_text s).lost from rfl, flush_lost]; exact h
    case pre =>
      rw [he_pre s t ht]
      split
      · rw [show ({ flush_text s with in_code := false } : ParserState).lost = (flush_text s).lost from rfl, flush_lost]; exact h
      · rw [flush_lost]; exact h
    case div =>
      rw [he_div s t ht]
      split
      · exact h
      · exact h
    case ulist => rw [he_ulist s t ht]; exact h
    case olist => rw [he_olist s t ht]; exact h
    case li => rw [he_li s t ht, flush_lost]; exact h
    case table => rw [he_table s t ht]; exact h
    case tr => rw [he_tr s t ht]; exact h
    case td => rw [he_td s t ht, hce_lost]; exact h
    case th => rw [he_th s t ht, hce_lost]; exact h
    case thead => rw [he_thead s t ht]; exact h
    case tbody => rw [he_tbody s t ht]; exact h
    case br => rw [he_br s t ht]; exact h
    case span => rw [he_span s t ht]; exact h
    case other => rw [he_other s t ht]; exact h

theorem processEvents_lost_mono (es : List HtmlEvent) :
    ∀ s : ParserState, s.lost = true → (processEvents s es).lost = true := by
  induction es with
  | nil => intro s h; exact h
  | cons e es ih =>
    intro s h
    rw [processEvents_cons]
    exact ih (step s e) (step_lost_mono s e h)

theorem step_inv (s : ParserState) (e : HtmlEvent)
    (href : refOk s.doc s.current_paragraph) :
    refOk (step s e).doc (step s e).current_paragraph ∧
      ((step s e).lost = false → CharsMono s (step s e)) ∧
      (∀ c ∈ dataChars [e], c.isWhitespace = false →
        c ∈ docChars (step s e).doc ++ (step s e).text_buffer.data) := by
  have hnodata : ∀ t a, dataChars [HtmlEvent.startTag t a] = [] := fun t a => rfl
  have hnodata2 : ∀ t, dataChars [HtmlEvent.endTag t] = [] := fun t => rfl
  cases e with
  | data d =>
    refine ⟨href, fun _ => ?_, ?_⟩
    · intro c hw hc
      rcases List.mem_append.mp hc with h1 | h2
      · exact List.mem_append_left _ h1
      · refine List.mem_append_right _ ?_
        show c ∈ (s.text_buffer ++ d).data
        rw [show (s.text_buffer ++ d).data = s.text_buffer.data ++ d.data from rfl]
        exact List.mem_append_left _ h2
    · intro c hc hw
      refine List.mem_append_right _ ?_
      show c ∈ (s.text_buffer ++ d).data
      rw [show (s.text_buffer ++ d).data = s.text_buffer.data ++ d.data from rfl]
      refine List.mem_append_right _ ?_
      have : dataChars [HtmlEvent.data d] = d.data := by
        show d.data ++ [] = d.data
        simp
      rw [this] at hc
      exact hc
  | startTag t a =>
    rw [step_start_eq]
    refine ?_
    have hflush := flush_inv s href
    cases ht : classifyTag t
    case heading n =>
      rw [hs_heading s t a ht]
      exact ⟨hflush.1, fun _ => hflush.2, fun c hc => by rw [hnodata] at hc; simp at hc⟩
    case par =>
      rw [hs_par s t a ht]
      refine ⟨(addParagraph_inv (flush_text s) "Normal").1, fun _ => ?_,
        fun c hc => by rw [hnodata] at hc; simp at hc⟩
      exact CharsMono_trans hflush.2 (addParagraph_inv (flush_text s) "Normal").2
    case code =>
      rw [hs_code s t a ht]
      exact ⟨hflush.1, fun _ => hflush.2, fun c hc => by rw [hnodata] at hc; simp at hc⟩
    case div =>
      rw [hs_div s t a ht]
      split
      · refine ⟨(addParagraph_inv { flush_text s with in_code_block := true } "Normal").1,
          fun _ => ?_, fun c hc => by rw [hnodata] at hc; simp at hc⟩
        exact CharsMono_trans hflush.2
          (addParagraph_inv { flush_text s with in_code_block := true } "Normal").2
      · exact ⟨href, fun _ => CharsMono_refl s, fun c hc => by rw [hnodata] at hc; simp at hc⟩
    case pre =>
      rw [hs_pre s t a ht]
      split
      · exact ⟨href, fun _ => CharsMono_refl s, fun c hc => by rw [hnodata] at hc; simp at hc⟩
      · refine ⟨(addParagraph_inv (flush_text s) "Normal").1, fun _ => ?_,
          fun c hc => by rw [hnodata] at hc; simp at hc⟩
        exact CharsMono_trans hflush.2 (addParagraph_inv (flush_text s) "Normal").2
    case ulist =>
      rw [hs_ulist s t a ht]
      exact ⟨hflush.1, fun _ => hflush.2, fun c hc => by rw [hnodata] at hc; simp at hc⟩
    case olist =>
      rw [hs_olist s t a ht]
      exact ⟨hflush.1, fun _ => hflush.2, fun c hc => by rw [hnodata] at hc; simp at hc⟩
    case li =>
      rw [hs_li s t a ht]
      refine ⟨(addParagraph_inv (flush_text s) "List Bullet").1, fun _ => ?_,
        fun c hc => by rw [hnodata] at hc; simp at hc⟩
      exact CharsMono_trans hflush.2 (addParagraph_inv (flush_text s) "List Bullet").2
    case table =>
      rw [hs_table s t a ht]
      refine ⟨refOk_append hflush.1, fun _ => ?_,
        fun c hc => by rw [hnodata] at hc; simp at hc⟩
      refine CharsMono_trans hflush.2 ?_
      intro c hw hc
      rcases List.mem_append.mp hc with h1 | h2
      · refine List.mem_append_left _ ?_
        show c ∈ docChars ((flush_text s).doc ++ [Block.table {}])
        rw [docChars_append]
        exact List.mem_append_left _ h1
      · exact List.mem_append_right _ h2
    case thead =>
      rw [hs_thead s t a ht]
      exact ⟨href, fun _ => CharsMono_refl s, fun c hc => by rw [hnodata] at hc; simp at hc⟩
    case tbody =>
      rw [hs_tbody s t a ht]
      exact ⟨href, fun _ => CharsMono_refl s, fun c hc => by rw [hnodata] at hc; simp at hc⟩
    case tr =>
      rw [hs_tr s t a ht]
      exact ⟨(hrs_inv s href).1, fun _ => (hrs_inv s href).2,
        fun c hc => by rw [hnodata] at hc; simp at hc⟩
    case td =>
      rw [hs_td s t a ht]
      exact ⟨(hcs_inv s href).1, (hcs_inv s href).2,
        fun c hc => by rw [hnodata] at hc; simp at hc⟩
    case th =>
      rw [hs_th s t a ht]
      exact ⟨(hcs_inv s href).1, (hcs_inv s href).2,
        fun c hc => by rw [hnodata] at hc; simp at hc⟩
    case br =>
      rw [hs_br s t a ht]
      refine ⟨href, fun _ => ?_, fun c hc => by rw [hnodata] at hc; simp at hc⟩
      intro c hw hc
      rcases List.mem_append.mp hc with h1 | h2
      · exact List.mem_append_left _ h1
      · refine List.mem_append_right _ ?_
        show c ∈ (s.text_buffer ++ "\n").data
        rw [show (s.text_buffer ++ "\n").data = s.text_buffer.data ++ "\n".data from rfl]
        exact List.mem_append_left _ h2
    case span =>
      rw [hs_span s t a ht]
      exact ⟨href, fun _ => CharsMono_refl s, fun c hc => by rw [hnodata] at hc; simp at hc⟩
    case other =>
      rw [hs_other s t a ht]
      exact ⟨href, fun _ => CharsMono_refl s, fun c hc => by rw [hnodata] at hc; simp at hc⟩
  | endTag t =>
    rw [step_end_eq]
    have hflush := flush_inv s href
    cases ht : classifyTag t
    case heading n =>
      rw [he_heading s t ht]
      exact ⟨(flushh_inv s).1, fun _ => (flushh_inv s).2,
        fun c hc => by rw [hnodata2] at hc; simp at hc⟩
    case par =>
      rw [he_par s t ht]
      exact ⟨hflush.1, fun _ => hflush.2,
        fun c hc => by rw [hnodata2] at hc; simp at hc⟩
    case code =>
      rw [he_code s t ht]
      exact ⟨hflush.1, fun _ => hflush.2,
        fun c hc => by rw [hnodata2] at hc; simp at hc⟩
    case pre =>
      rw [he_pre s t ht]
      split
      · exact ⟨hflush.1, fun _ => hflush.2,
          fun c hc => by rw [hnodata2] at hc; simp at hc⟩
      · exact ⟨hflush.1, fun _ => hflush.2,
          fun c hc => by rw [hnodata2] at hc; simp at hc⟩
    case div =>
      rw [he_div s t ht]
      split
      · exact ⟨trivial, fun _ => CharsMono_refl s,
          fun c hc => by rw [hnodata2] at hc; simp at hc⟩
      · exact ⟨href, fun _ => CharsMono_refl s,
          fun c hc => by rw [hnodata2] at hc; simp at hc⟩
    case ulist =>
      rw [he_ulist s t ht]
      exact ⟨href, fun _ => CharsMono_refl s,
        fun c hc => by rw [hnodata2] at hc; simp at hc⟩
    case olist =>
      rw [he_olist s t ht]
      exact ⟨href, fun _ => CharsMono_refl s,
        fun c hc => by rw [hnodata2] at hc; simp at hc⟩
    case li =>
      rw [he_li s t ht]
      exact ⟨hflush.1, fun _ => hflush.2,
        fun c hc => by rw [hnodata2] at hc; simp at hc⟩
    case table =>
      rw [he_table s t ht]
      exact ⟨href, fun _ => CharsMono_refl s,
        fun c hc => by rw [hnodata2] at hc; simp at hc⟩
    case tr =>
      rw [he_tr s t ht]
      exact ⟨href, fun _ => CharsMono_refl s,
        fun c hc => by rw [hnodata2] at hc; simp at hc⟩
    case td =>
      rw [he_td s t ht]
      refine ⟨?_, fun _ => hflush.2,
        fun c hc => by rw [hnodata2] at hc; simp at hc⟩
      show refOk (handleCellEnd s).doc none
      trivial
    case th =>
      rw [he_th s t ht]
      refine ⟨?_, fun _ => hflush.2,
        fun c hc => by rw [hnodata2] at hc; simp at hc⟩
      show refOk (handleCellEnd s).doc none
      trivial
    case thead =>
      rw [he_thead s t ht]
      exact ⟨href, fun _ => CharsMono_refl s,
        fun c hc => by rw [hnodata2] at hc; simp at hc⟩
    case tbody =>
      rw [he_tbody s t ht]
      exact ⟨href, fun _ => CharsMono_refl s,
        fun c hc => by rw [hnodata2] at hc; simp at hc⟩
    case br =>
      rw [he_br s t ht]
      exact ⟨href, fun _ => CharsMono_refl s,
        fun c hc => by rw [hnodata2] at hc; simp at hc⟩
    case span =>
      rw [he_span s t ht]
      exact ⟨href, fun _ => CharsMono_refl s,
        fun c hc => by rw [hnodata2] at hc; simp at hc⟩
    case other =>
      rw [he_other s t ht]
      exact ⟨href, fun _ => CharsMono_refl s,
        fun c hc => by rw [hnodata2] at hc; simp at hc⟩

theorem processEvents_inv (es : List HtmlEvent) :
    ∀ s : ParserState, refOk s.doc s.current_paragraph →
      refOk (processEvents s es).doc (processEvents s es).current_paragraph ∧
      ((processEvents s es).lost = false →
        ∀ c : Char, c.isWhitespace = false →
          (c ∈ docChars s.doc ++ s.text_buffer.data ∨ c ∈ dataChars es) →
          c ∈ docChars (processEvents s es).doc ++
            (processEvents s es).text_buffer.data) := by
  induction es with
  | nil =>
    intro s h
    refine ⟨h, fun _ c hw hc => ?_⟩
    rcases hc with h1 | h2
    · exact h1
    · simp [dataChars] at h2
  | cons e es ih =>
    intro s h
    obtain ⟨hr1, hm1, hd1⟩ := step_inv s e h
    obtain ⟨hr2, hm2⟩ := ih (step s e) hr1
    rw [processEvents_cons]
    refine ⟨hr2, ?_⟩
    intro hlost c hw hc
    have hstep_lost : (step s e).lost = false := by
      cases hls : (step s e).lost
      · rfl
      · rw [processEvents_lost_mono es (step s e) hls] at hlost
        simp at hlost
    apply hm2 hlost c hw
    rcases hc with h1 | h2
    · exact Or.inl (hm1 hstep_lost c hw h1)
    · have hsplit : dataChars (e :: es) = dataChars [e] ++ dataChars es := by
        show dataChars (e :: es) = _
        unfold dataChars
        rw [List.flatMap_cons, List.flatMap_cons]
        simp
      rw [hsplit] at h2
      rcases List.mem_append.mp h2 with h3 | h4
      · exact Or.inl (hd1 c h3 hw)
      · exact Or.inr h4

/-- Claim C1 (corrected): every non-whitespace character delivered in a Data
event appears in the text of some run or heading block of the output
document — including trailing buffered data at the end of the stream and
data inside unknown or structurally ignored tags — provided no start-cell
event of the stream re-selects (and thereby clears, via `cell.text = ''`) a
table cell that already holds committed text, i.e. provided the ghost flag
`lost` stays false.  The restriction is necessary: consecutive start-cell
events without an intervening end-cell can destroy the earlier cell's
committed characters. -/
theorem claim1_text_preserved (es : List HtmlEvent)
    (h : (html_to_docx es).lost = false) :
    ∀ c ∈ dataChars es, c.isWhitespace = false →
      c ∈ docChars (html_to_docx es).doc := by
  intro c hc hw
  have hinit : refOk initState.doc initState.current_paragraph := trivial
  have hP := processEvents_inv es initState hinit
  have hplost : (processEvents initState es).lost = false := by
    have heq : (html_to_docx es).lost = (processEvents initState es).lost :=
      flush_lost _
    rw [← heq]
    exact h
  have hmem := hP.2 hplost c hw (Or.inr hc)
  obtain ⟨hrf, hmono⟩ := flush_inv (processEvents initState es) hP.1
  have hfin := hmono c hw hmem
  rcases List.mem_append.mp hfin with h1 | h2
  · exact h1
  · exfalso
    have hfb : (flush_text (processEvents initState es)).text_buffer = "" := by
      unfold flush_text
      split
      all_goals rfl
    rw [hfb] at h2
    simp at h2

/-- Witness for the hypothesis of claim C1, at the stream `<p>hi</p>`: its
cell-clearing flag stays false and the character `h` of the Data event
reaches a run of the output document. -/
theorem claim1_witness :
    (html_to_docx exPlainParagraph).lost = false ∧
    'h' ∈ dataChars exPlainParagraph ∧ ('h'.isWhitespace = false) ∧
    'h' ∈ docChars (html_to_docx exPlainParagraph).doc :=
  ⟨by decide, by decide, by decide,
    claim1_text_preserved exPlainParagraph (by decide) 'h' (by decide) (by decide)⟩

end MdToDocx

